import Mathlib

/-!
# StarEngine `Timer` — shallow embedding and verified properties

Source: `StarEngine/jni/Helpers/Timer.cpp` (namespace `star`).

Modelling conventions.

* `double` values (`m_TargetTime`, `m_CurrentTime`, the value returned by
  `context.mTimeManager->GetSeconds()`) are modelled as the rationals they
  denote; infinities and NaN are outside the model.
* The arithmetic of `Update` is embedded twice.  `UpdateRounded rnd` stores
  `rnd` of the exact sum or difference, where `rnd` is the rounding of the
  `double` operation; `roundDouble` is IEEE 754 binary64 round-to-nearest,
  ties to even.  `Update` is the instance without rounding
  (`UpdateRounded id`); it is used for the properties that depend only on how
  each stored value compares with `0` and `m_TargetTime`, and every rounded
  call is an exact call with an adjusted elapsed value
  (`UpdateRounded_eq_Update`).  Properties of the values accumulated over
  several calls (sums, periods) are stated for `UpdateRounded` with an
  arbitrary `rnd`.
* Every concrete input used with `Update` is a dyadic rational on which
  `double` arithmetic is exact, except `125.7` of Scenario D, whose nearest
  `double` truncates to the same integer.
* `int32` values are modelled as `Int`; the conversion `(int32)x` is `none`
  when the truncated value does not fit in 32 bits (undefined behaviour).
* `std::function<void ()>` is modelled as `Option Nat`: `none` is the empty
  function object (constructed from `nullptr`), `some f` is a callable target
  identified by `f`.  Calling the empty object throws `std::bad_function_call`.
  A callable target acts on the rest of the program only; it does not touch the
  timer it belongs to.  Its observable effect is recorded by appending `f` to
  the log `World.fired`.
* A member function that mutates `*this` becomes a function from the old object
  to the new one.  `Update` can also throw, so it returns the state reached
  together with `Except Exn Bool`.
* `Context` and `TimeManager` are declared outside this file; `Update` takes the
  value of `context.mTimeManager->GetSeconds()` as the parameter `seconds`.
-/

namespace star

/-- Fields of `class Timer`, in declaration order of the constructors'
initialiser lists. -/
structure Timer where
  m_TargetTime : ℚ
  m_CurrentTime : ℚ
  m_CountingDown : Bool
  m_Looping : Bool
  m_Paused : Bool
  m_Infinite : Bool
  m_ExcecutingFunction : Option Nat
  deriving DecidableEq, Repr

/-- Exceptions that can leave `Timer::Update`. -/
inductive Exn where
  | bad_function_call
  deriving DecidableEq, Repr

/-- Program state seen by `Update`: the timer object and the log of callback
targets that have run so far (most recent last). -/
structure World where
  timer : Timer
  fired : List Nat
  deriving DecidableEq, Repr

namespace Timer

/-- Default constructor `Timer::Timer()` (Timer.cpp lines 6-15). -/
def default : Timer :=
  { m_TargetTime := 1
    m_CurrentTime := 0
    m_CountingDown := false
    m_Looping := false
    m_Paused := false
    m_Infinite := false
    m_ExcecutingFunction := none }

/-- Constructor `Timer::Timer(double targetTime, bool countingDown, bool loop,
std::function<void ()> func, bool paused)` (lines 17-28). -/
def mk5 (targetTime : ℚ) (countingDown loop : Bool) (func : Option Nat)
    (paused : Bool) : Timer :=
  { m_TargetTime := targetTime
    m_CurrentTime := if countingDown then targetTime else 0
    m_CountingDown := countingDown
    m_Looping := loop
    m_Paused := paused
    m_Infinite := if targetTime = 0 then true else false
    m_ExcecutingFunction := func }

/-- Member `void Timer::SetPaused(bool paused)` (lines 119-122). -/
def SetPaused (t : Timer) (paused : Bool) : Timer :=
  { t with m_Paused := paused }

/-- Member `void Timer::SetCountingDown(bool countingDown)` (lines 124-127). -/
def SetCountingDown (t : Timer) (countingDown : Bool) : Timer :=
  { t with m_CountingDown := countingDown }

/-- Member `void Timer::SetLoop(bool looping)` (lines 129-132). -/
def SetLoop (t : Timer) (looping : Bool) : Timer :=
  { t with m_Looping := looping }

/-- Member `void Timer::Reset(bool paused)` (lines 134-138). -/
def Reset (t : Timer) (paused : Bool) : Timer :=
  SetPaused
    { t with m_CurrentTime := if t.m_CountingDown then t.m_TargetTime else 0 }
    paused

/-- Member `void Timer::SetTargetTime(double targetTime, const bool reset,
const bool paused)` (lines 140-147). -/
def SetTargetTime (t : Timer) (targetTime : ℚ) (reset paused : Bool) : Timer :=
  let t1 := { t with m_TargetTime := targetTime }
  if reset then Reset t1 paused else t1

/-- Member `void Timer::SetFunction(std::function<void ()> func)` (lines 149-152). -/
def SetFunction (t : Timer) (func : Option Nat) : Timer :=
  { t with m_ExcecutingFunction := func }

end Timer

/-- The tail shared by both branches of `Timer::Update` once `m_CurrentTime`
has moved past its boundary (lines 91-97 and 106-112): call
`m_ExcecutingFunction()`, then `Reset(false)` and `return false` when looping,
`return true` otherwise.  `t` is the timer with `m_CurrentTime` already
advanced.  Calling an empty `std::function` throws before anything else
happens. -/
def complete (t : Timer) (fired : List Nat) : Except Exn Bool × World :=
  match t.m_ExcecutingFunction with
  | none => (.error .bad_function_call, { timer := t, fired := fired })
  | some f =>
    if t.m_Looping then
      (.ok false, { timer := t.Reset false, fired := fired ++ [f] })
    else
      (.ok true, { timer := t, fired := fired ++ [f] })

/-- Member `bool Timer::Update(const Context& context)` (lines 80-117); `seconds` is
the value of `context.mTimeManager->GetSeconds()`. -/
def Update (w : World) (seconds : ℚ) : Except Exn Bool × World :=
  let t := w.timer
  if t.m_Paused then
    (.ok false, w)
  else if t.m_CountingDown && decide (t.m_CurrentTime ≥ 0) then
    let t1 := { t with m_CurrentTime := t.m_CurrentTime - seconds }
    if t1.m_CurrentTime < 0 then
      complete t1 w.fired
    else
      (.ok false, { w with timer := t1 })
  else if !t.m_CountingDown && decide (t.m_CurrentTime ≤ t.m_TargetTime) then
    let t1 := { t with m_CurrentTime := t.m_CurrentTime + seconds }
    if t1.m_CurrentTime > t1.m_TargetTime then
      complete t1 w.fired
    else
      (.ok false, { w with timer := t1 })
  else
    (.ok true, w)

/-- A caller making successive `Update` calls, one per entry of `ds` (the
elapsed seconds of each frame).  Returns the value of each call in order and
the final state.  An exception leaving `Update` propagates out of the caller,
so no further call is made. -/
def UpdateAll (w : World) : List ℚ → List (Except Exn Bool) × World
  | [] => ([], w)
  | d :: ds =>
    match Update w d with
    | (.ok b, w1) =>
      let r := UpdateAll w1 ds
      (.ok b :: r.1, r.2)
    | (.error e, w1) => ([.error e], w1)

/-- A fresh world around a timer: no callback has run yet. -/
def World.init (t : Timer) : World := { timer := t, fired := [] }

/-- One `Update` call as seen from outside: the state before it, the elapsed
seconds passed in, what the call produced and the state after it. -/
structure Call where
  pre : World
  seconds : ℚ
  ret : Except Exn Bool
  post : World

/-- The calls made by the caller of `UpdateAll`, in order. -/
def trace (w : World) : List ℚ → List Call
  | [] => []
  | d :: ds =>
    match Update w d with
    | (.ok b, w1) => ⟨w, d, .ok b, w1⟩ :: trace w1 ds
    | (.error e, w1) => [⟨w, d, .error e, w1⟩]

/-- The direction-appropriate start value: `m_TargetTime` when counting down,
`0` when counting up. -/
def resetValue (t : Timer) : ℚ :=
  if t.m_CountingDown then t.m_TargetTime else 0

/-- An `Update` call with elapsed `seconds` crosses the completion boundary of
`t`: before the call the current time is on the running side of the boundary
(`≥ 0` counting down, `≤ m_TargetTime` counting up) and advancing it by
`seconds` takes it strictly past (`< 0`, respectively `> m_TargetTime`). -/
def crossesBoundary (t : Timer) (seconds : ℚ) : Bool :=
  if t.m_CountingDown then
    decide (0 ≤ t.m_CurrentTime ∧ t.m_CurrentTime - seconds < 0)
  else
    decide (t.m_CurrentTime ≤ t.m_TargetTime ∧ t.m_TargetTime < t.m_CurrentTime + seconds)

/-- The closed interval `[0, m_TargetTime]` for `m_CurrentTime`. -/
def inRange (t : Timer) : Prop :=
  0 ≤ t.m_CurrentTime ∧ t.m_CurrentTime ≤ t.m_TargetTime

instance (t : Timer) : Decidable (inRange t) := by
  unfold inRange; infer_instance

/-- Conversion `(int32)x` of a `double` value: the fractional part is discarded
(truncation toward zero).  The behaviour is undefined when the truncated value
is not representable in `int32`; that case is `none`. -/
def toInt32 (x : ℚ) : Option Int :=
  let z := x.num.tdiv x.den
  if -2147483648 ≤ z ∧ z ≤ 2147483647 then some z else none

/-- Member `int32 Timer::GetCurrentMinutes() const` (lines 154-159); `/` on
`int32` truncates toward zero. -/
def Timer.GetCurrentMinutes (t : Timer) : Option Int :=
  (toInt32 t.m_CurrentTime).map fun currentTime => currentTime.tdiv 60

/-- Member `int32 Timer::GetCurrentSeconds() const` (lines 161-166); `%` on
`int32` takes the sign of the dividend. -/
def Timer.GetCurrentSeconds (t : Timer) : Option Int :=
  (toInt32 t.m_CurrentTime).map fun currentTime => currentTime.tmod 60

/-- Member `int32 Timer::GetCurrentTotalSeconds() const` (lines 168-173). -/
def Timer.GetCurrentTotalSeconds (t : Timer) : Option Int :=
  toInt32 t.m_CurrentTime

/-- Member `double Timer::GetTargetTime() const` (lines 175-178). -/
def Timer.GetTargetTime (t : Timer) : ℚ := t.m_TargetTime

/-- Member `double Timer::GetCurrentAccurateTime() const` (lines 180-183). -/
def Timer.GetCurrentAccurateTime (t : Timer) : ℚ := t.m_CurrentTime

/-- The timer `t` with its current time `r` steps of size `dt` away from the
start value of its direction. -/
def afterSteps (t : Timer) (dt : ℚ) (r : Nat) : Timer :=
  { t with m_CurrentTime :=
      if t.m_CountingDown then t.m_TargetTime - r * dt else r * dt }

/-- Nearest integer to `y`, ties to the even one. -/
def roundNearestEven (y : ℚ) : ℤ :=
  if y - ⌊y⌋ < 1 / 2 then ⌊y⌋
  else if 1 / 2 < y - ⌊y⌋ then ⌊y⌋ + 1
  else if ⌊y⌋ % 2 = 0 then ⌊y⌋ else ⌊y⌋ + 1

/-- Exponent of the spacing of IEEE 754 binary64 values around `x`: 52 below
the binary exponent of `x` (53-bit significand), and never below `-1074` (the
subnormal range). -/
def quantumExp (x : ℚ) : ℤ :=
  max (Int.log 2 |x| - 52) (-1074)

/-- IEEE 754 binary64 rounding of a real result, round-to-nearest, ties to
even: the result of a `double` `+` or `-` is `roundDouble` of the exact sum or
difference of the operands.  Overflow to infinity (results beyond the largest
finite `double`) is outside the model. -/
def roundDouble (x : ℚ) : ℚ :=
  roundNearestEven (x / 2 ^ quantumExp x) * 2 ^ quantumExp x

/-- Member `bool Timer::Update(const Context& context)` (lines 80-117) with the
rounding of the `double` arithmetic made explicit: `rnd` maps the exact result
of `m_CurrentTime -= seconds` (line 88) and `m_CurrentTime += seconds`
(line 103) to the value that is stored.  `UpdateRounded roundDouble` is the code
on binary64 values; `UpdateRounded id` is `Update`. -/
def UpdateRounded (rnd : ℚ → ℚ) (w : World) (seconds : ℚ) : Except Exn Bool × World :=
  let t := w.timer
  if t.m_Paused then
    (.ok false, w)
  else if t.m_CountingDown && decide (t.m_CurrentTime ≥ 0) then
    let t1 := { t with m_CurrentTime := rnd (t.m_CurrentTime - seconds) }
    if t1.m_CurrentTime < 0 then
      complete t1 w.fired
    else
      (.ok false, { w with timer := t1 })
  else if !t.m_CountingDown && decide (t.m_CurrentTime ≤ t.m_TargetTime) then
    let t1 := { t with m_CurrentTime := rnd (t.m_CurrentTime + seconds) }
    if t1.m_CurrentTime > t1.m_TargetTime then
      complete t1 w.fired
    else
      (.ok false, { w with timer := t1 })
  else
    (.ok true, w)

/-- The caller of `UpdateAll`, with the rounding `rnd` of each `Update`. -/
def UpdateAllRounded (rnd : ℚ → ℚ) (w : World) :
    List ℚ → List (Except Exn Bool) × World
  | [] => ([], w)
  | d :: ds =>
    match UpdateRounded rnd w d with
    | (.ok b, w1) =>
      let r := UpdateAllRounded rnd w1 ds
      (.ok b :: r.1, r.2)
    | (.error e, w1) => ([.error e], w1)

/-- The exact result of the arithmetic of one `Update` call, before rounding:
`m_CurrentTime - seconds` counting down, `m_CurrentTime + seconds` counting
up. -/
def advance (t : Timer) (seconds : ℚ) : ℚ :=
  if t.m_CountingDown then t.m_CurrentTime - seconds else t.m_CurrentTime + seconds

/-- The timer left by one rounded `Update` call with elapsed `dt`. -/
def stepTimer (rnd : ℚ → ℚ) (dt : ℚ) (t : Timer) : Timer :=
  (UpdateRounded rnd ⟨t, []⟩ dt).2.timer

/-- The callbacks run by one rounded `Update` call with elapsed `dt`. -/
def stepFired (rnd : ℚ → ℚ) (dt : ℚ) (t : Timer) : List Nat :=
  (UpdateRounded rnd ⟨t, []⟩ dt).2.fired

/-- The state left by one rounded `Update` call with elapsed `dt`. -/
def stepWorld (rnd : ℚ → ℚ) (dt : ℚ) (w : World) : World :=
  (UpdateRounded rnd w dt).2

/-- The binary64 value nearest to `0.6`. -/
def double_0_6 : ℚ := 5404319552844595 / 9007199254740992

/-! ## Basic facts about `Update` -/

theorem Update_of_paused (w : World) (seconds : ℚ) (h : w.timer.m_Paused = true) :
    Update w seconds = (.ok false, w) := by
  simp [Update, h]

/-- The boundary test of `Update`'s last `return true`: the timer is counting
down with a negative current time, or counting up with the current time above
the target. -/
def pastBoundary (t : Timer) : Prop :=
  (t.m_CountingDown = true ∧ t.m_CurrentTime < 0) ∨
  (t.m_CountingDown = false ∧ t.m_TargetTime < t.m_CurrentTime)

instance (t : Timer) : Decidable (pastBoundary t) := by
  unfold pastBoundary; infer_instance

theorem Update_of_pastBoundary (w : World) (seconds : ℚ)
    (hp : w.timer.m_Paused = false) (h : pastBoundary w.timer) :
    Update w seconds = (.ok true, w) := by
  rcases h with ⟨hcd, hc⟩ | ⟨hcd, hc⟩
  · simp [Update, hp, hcd, not_le.mpr hc]
  · simp [Update, hp, hcd, not_le.mpr hc]

theorem UpdateAll_of_pastBoundary (w : World) (ds : List ℚ)
    (hp : w.timer.m_Paused = false) (h : pastBoundary w.timer) :
    UpdateAll w ds = (List.replicate ds.length (.ok true), w) := by
  induction ds with
  | nil => rfl
  | cons d ds ih =>
    simp [UpdateAll, Update_of_pastBoundary w d hp h, ih, List.replicate_succ]

theorem Update_countDown_aux (w : World) (dt : ℚ) (f : Nat)
    (hp : w.timer.m_Paused = false) (hcd : w.timer.m_CountingDown = true)
    (hc : 0 ≤ w.timer.m_CurrentTime) (hf : w.timer.m_ExcecutingFunction = some f) :
    (0 ≤ w.timer.m_CurrentTime - dt →
      Update w dt = (.ok false,
        { timer := { w.timer with m_CurrentTime := w.timer.m_CurrentTime - dt },
          fired := w.fired })) ∧
    (w.timer.m_CurrentTime - dt < 0 → w.timer.m_Looping = false →
      Update w dt = (.ok true,
        { timer := { w.timer with m_CurrentTime := w.timer.m_CurrentTime - dt },
          fired := w.fired ++ [f] })) ∧
    (w.timer.m_CurrentTime - dt < 0 → w.timer.m_Looping = true →
      Update w dt = (.ok false,
        { timer := { w.timer with m_CurrentTime := w.timer.m_TargetTime },
          fired := w.fired ++ [f] })) := by
  refine ⟨fun h => ?_, fun h hl => ?_, fun h hl => ?_⟩
  · simp [Update, hp, hcd, hc, not_lt.mpr h]
  · simp [Update, complete, hp, hcd, hc, h, hf, hl]
  · simp [Update, complete, Timer.Reset, Timer.SetPaused, hp, hcd, hc, h, hf, hl]

theorem Update_countUp_aux (w : World) (dt : ℚ) (f : Nat)
    (hp : w.timer.m_Paused = false) (hcd : w.timer.m_CountingDown = false)
    (hc : w.timer.m_CurrentTime ≤ w.timer.m_TargetTime)
    (hf : w.timer.m_ExcecutingFunction = some f) :
    (w.timer.m_CurrentTime + dt ≤ w.timer.m_TargetTime →
      Update w dt = (.ok false,
        { timer := { w.timer with m_CurrentTime := w.timer.m_CurrentTime + dt },
          fired := w.fired })) ∧
    (w.timer.m_TargetTime < w.timer.m_CurrentTime + dt → w.timer.m_Looping = true →
      Update w dt = (.ok false,
        { timer := { w.timer with m_CurrentTime := 0, m_Paused := false },
          fired := w.fired ++ [f] })) ∧
    (w.timer.m_TargetTime < w.timer.m_CurrentTime + dt → w.timer.m_Looping = false →
      Update w dt = (.ok true,
        { timer := { w.timer with m_CurrentTime := w.timer.m_CurrentTime + dt },
          fired := w.fired ++ [f] })) := by
  refine ⟨fun h => ?_, fun h hl => ?_, fun h hl => ?_⟩
  · simp [Update, hp, hcd, hc, not_lt.mpr h]
  · simp [Update, complete, Timer.Reset, Timer.SetPaused, hp, hcd, hc, h, hf, hl]
  · simp [Update, complete, hp, hcd, hc, h, hf, hl]

theorem getLast?_cons_replicate {α : Type} (a : α) (n : Nat) :
    (a :: List.replicate n a).getLast? = some a := by
  induction n with
  | zero => rfl
  | succ n ih => rw [List.replicate_succ, List.getLast?_cons_cons]; exact ih

/-- Without rounding: a non-looping count-down timer driven by non-negative
increments `ds` from `m_CurrentTime = c ≥ 0`: while the increments sum to at most `c` nothing fires
and every call returns `false`; once they sum to more than `c` the callback has
run exactly once and the last call returns `true`. -/
theorem UpdateAll_countDown_nonLooping (f : Nat) (ds : List ℚ) :
    ∀ w : World, w.timer.m_Paused = false → w.timer.m_CountingDown = true →
      w.timer.m_Looping = false → w.timer.m_ExcecutingFunction = some f →
      0 ≤ w.timer.m_CurrentTime → (∀ d ∈ ds, 0 ≤ d) →
      (ds.sum ≤ w.timer.m_CurrentTime →
        UpdateAll w ds = (List.replicate ds.length (.ok false),
          { timer := { w.timer with m_CurrentTime := w.timer.m_CurrentTime - ds.sum },
            fired := w.fired })) ∧
      (w.timer.m_CurrentTime < ds.sum →
        (UpdateAll w ds).2.fired = w.fired ++ [f] ∧
        (UpdateAll w ds).1.getLast? = some (.ok true) ∧
        (UpdateAll w ds).1.length = ds.length) := by
  induction ds with
  | nil =>
    intro w _ _ _ _ hc _
    refine ⟨fun _ => ?_, fun h => ?_⟩
    · simp [UpdateAll]
    · simp at h; exact absurd h (not_lt.mpr hc)
  | cons d ds ih =>
    intro w hp hcd hl hf hc hds
    have hd : 0 ≤ d := hds d (List.mem_cons_self _ _)
    have hds' : ∀ x ∈ ds, 0 ≤ x := fun x hx => hds x (List.mem_cons_of_mem _ hx)
    have hsum : 0 ≤ ds.sum := List.sum_nonneg hds'
    have hU := Update_countDown_aux w d f hp hcd hc hf
    by_cases hlt : w.timer.m_CurrentTime - d < 0
    · have h1 := hU.2.1 hlt hl
      have hall := UpdateAll_of_pastBoundary
        { timer := { w.timer with m_CurrentTime := w.timer.m_CurrentTime - d },
          fired := w.fired ++ [f] } ds hp (Or.inl ⟨hcd, hlt⟩)
      refine ⟨fun h => ?_, fun _ => ?_⟩
      · simp only [List.sum_cons] at h
        linarith
      · simp only [UpdateAll, h1]
        rw [hall]
        exact ⟨rfl, getLast?_cons_replicate _ _, by simp⟩
    · have hge : 0 ≤ w.timer.m_CurrentTime - d := not_lt.mp hlt
      have h1 := hU.1 hge
      have ih' := ih
        { timer := { w.timer with m_CurrentTime := w.timer.m_CurrentTime - d },
          fired := w.fired } hp hcd hl hf hge hds'
      refine ⟨fun h => ?_, fun h => ?_⟩
      · simp only [List.sum_cons] at h
        simp only [UpdateAll, h1]
        rw [ih'.1 (by simp only []; linarith)]
        simp [List.replicate_succ, sub_sub]
      · simp only [List.sum_cons] at h
        simp only [UpdateAll, h1]
        obtain ⟨h2, h3, h4⟩ := ih'.2 (by simp only []; linarith)
        refine ⟨h2, ?_, by simp [h4]⟩
        cases hr : (UpdateAll
          { timer := { w.timer with m_CurrentTime := w.timer.m_CurrentTime - d },
            fired := w.fired } ds).1 with
        | nil => rw [hr] at h3; simp at h3
        | cons a as => rw [hr] at h3; rw [List.getLast?_cons_cons]; exact h3

/-- One `Update` call on an unpaused looping timer with a callback set: it
returns normally, keeps the flags, the target and the callback, runs the
callback exactly when the call crosses the boundary, and a crossing call leaves
the current time at the start value. -/
theorem Update_looping_step (w : World) (d : ℚ) (f : Nat)
    (hp : w.timer.m_Paused = false) (hl : w.timer.m_Looping = true)
    (hf : w.timer.m_ExcecutingFunction = some f) :
    ∃ b w1, Update w d = (.ok b, w1) ∧
      w1.timer.m_Paused = false ∧ w1.timer.m_Looping = true ∧
      w1.timer.m_ExcecutingFunction = some f ∧
      w1.timer.m_CountingDown = w.timer.m_CountingDown ∧
      w1.timer.m_TargetTime = w.timer.m_TargetTime ∧
      w1.fired = w.fired ++ (if crossesBoundary w.timer d then [f] else []) ∧
      (crossesBoundary w.timer d = true → w1.timer.m_CurrentTime = resetValue w.timer) := by
  cases hcd : w.timer.m_CountingDown
  · by_cases hc : w.timer.m_CurrentTime ≤ w.timer.m_TargetTime
    · by_cases hx : w.timer.m_TargetTime < w.timer.m_CurrentTime + d
      · exact ⟨false, _, (Update_countUp_aux w d f hp hcd hc hf).2.1 hx hl,
          by simp [hl, hf, hcd, crossesBoundary, resetValue, hc, hx]⟩
      · exact ⟨false, _, (Update_countUp_aux w d f hp hcd hc hf).1 (not_lt.mp hx),
          by simp [hp, hl, hf, hcd, crossesBoundary, resetValue, hc, hx]⟩
    · exact ⟨true, w, Update_of_pastBoundary w d hp (Or.inr ⟨hcd, not_le.mp hc⟩),
        by simp [hp, hl, hf, hcd, crossesBoundary, resetValue, hc]⟩
  · by_cases hc : 0 ≤ w.timer.m_CurrentTime
    · by_cases hx : w.timer.m_CurrentTime - d < 0
      · exact ⟨false, _, (Update_countDown_aux w d f hp hcd hc hf).2.2 hx hl,
          by simp [hp, hl, hf, hcd, crossesBoundary, resetValue, hc, hx]⟩
      · exact ⟨false, _, (Update_countDown_aux w d f hp hcd hc hf).1 (not_lt.mp hx),
          by simp [hp, hl, hf, hcd, crossesBoundary, resetValue, hc, hx]⟩
    · exact ⟨true, w, Update_of_pastBoundary w d hp (Or.inl ⟨hcd, not_le.mp hc⟩),
        by simp [hp, hl, hf, hcd, crossesBoundary, resetValue, hc]⟩

theorem trace_ret (ds : List ℚ) :
    ∀ w : World, (trace w ds).map Call.ret = (UpdateAll w ds).1 := by
  induction ds with
  | nil => intro w; rfl
  | cons d ds ih =>
    intro w
    rcases hU : Update w d with ⟨_ | b, w1⟩
    · simp [trace, UpdateAll, hU]
    · simp [trace, UpdateAll, hU, ih]

/-- A looping unpaused timer with a callback, driven through any sequence of
`Update` calls: every call is made (none throws), the callback log grows by one
entry per crossing call, and each crossing call leaves the current time at the
start value of the timer's direction. -/
theorem trace_looping (f : Nat) (ds : List ℚ) :
    ∀ w : World, w.timer.m_Paused = false → w.timer.m_Looping = true →
      w.timer.m_ExcecutingFunction = some f →
      (trace w ds).length = ds.length ∧
      (UpdateAll w ds).2.fired = w.fired ++
        List.replicate ((trace w ds).countP
          (fun c => crossesBoundary c.pre.timer c.seconds)) f ∧
      (∀ c ∈ trace w ds, crossesBoundary c.pre.timer c.seconds = true →
        c.post.timer.m_CurrentTime = resetValue w.timer) := by
  induction ds with
  | nil => intro w _ _ _; simp [trace, UpdateAll]
  | cons d ds ih =>
    intro w hp hl hf
    obtain ⟨b, w1, hU, hp1, hl1, hf1, hcd1, hT1, hfired, hcur⟩ :=
      Update_looping_step w d f hp hl hf
    obtain ⟨ih1, ih2, ih3⟩ := ih w1 hp1 hl1 hf1
    have hrv : resetValue w1.timer = resetValue w.timer := by
      simp [resetValue, hcd1, hT1]
    refine ⟨by simp [trace, hU, ih1], ?_, ?_⟩
    · simp only [trace, UpdateAll, hU, ih2, hfired, List.countP_cons]
      by_cases hx : crossesBoundary w.timer d = true
      · simp [hx, List.replicate_succ]
      · simp [hx]
    · intro c hc hcross
      simp only [trace, hU, List.mem_cons] at hc
      rcases hc with rfl | hc
      · exact hcur hcross
      · rw [← hrv]; exact ih3 c hc hcross

/-! ## Claims -/

/-- C1: on a paused timer `Update` returns `false`, runs no callback and leaves
every field (in particular `m_CurrentTime`) unchanged, whatever the elapsed
value; hence any number of consecutive `Update` calls on a paused timer all
return `false` and leave the state as it was. -/
theorem paused_Update_noop (w : World) (h : w.timer.m_Paused = true) :
    (∀ seconds : ℚ, Update w seconds = (.ok false, w)) ∧
    (∀ ds : List ℚ, UpdateAll w ds = (List.replicate ds.length (.ok false), w)) := by
  refine ⟨fun seconds => Update_of_paused w seconds h, fun ds => ?_⟩
  induction ds with
  | nil => rfl
  | cons d ds ih => simp [UpdateAll, Update_of_paused w d h, ih, List.replicate_succ]

theorem paused_Update_noop_witness :
    (∀ seconds : ℚ,
      Update (World.init (Timer.mk5 5 true false (some 0) true)) seconds
        = (.ok false, World.init (Timer.mk5 5 true false (some 0) true))) ∧
    (∀ ds : List ℚ,
      UpdateAll (World.init (Timer.mk5 5 true false (some 0) true)) ds
        = (List.replicate ds.length (.ok false),
            World.init (Timer.mk5 5 true false (some 0) true))) :=
  paused_Update_noop (World.init (Timer.mk5 5 true false (some 0) true)) rfl

/-- C2: on an unpaused count-down timer with `m_CurrentTime = c ≥ 0` and a
callback set, `Update` with elapsed `dt` stores `c - dt`; when `c - dt ≥ 0` it
returns `false` and runs no callback; when `c - dt < 0` it runs the callback
exactly once and, for a non-looping timer, returns `true` leaving
`m_CurrentTime = c - dt` unclamped (a looping timer is reset and returns
`false`). -/
theorem Update_countDown (w : World) (dt : ℚ) (f : Nat)
    (hp : w.timer.m_Paused = false) (hcd : w.timer.m_CountingDown = true)
    (hc : 0 ≤ w.timer.m_CurrentTime) (hf : w.timer.m_ExcecutingFunction = some f) :
    (0 ≤ w.timer.m_CurrentTime - dt →
      Update w dt = (.ok false,
        { timer := { w.timer with m_CurrentTime := w.timer.m_CurrentTime - dt },
          fired := w.fired })) ∧
    (w.timer.m_CurrentTime - dt < 0 → w.timer.m_Looping = false →
      Update w dt = (.ok true,
        { timer := { w.timer with m_CurrentTime := w.timer.m_CurrentTime - dt },
          fired := w.fired ++ [f] })) ∧
    (w.timer.m_CurrentTime - dt < 0 → w.timer.m_Looping = true →
      Update w dt = (.ok false,
        { timer := { w.timer with m_CurrentTime := w.timer.m_TargetTime },
          fired := w.fired ++ [f] })) :=
  Update_countDown_aux w dt f hp hcd hc hf

/-- Scenario A: `Timer(5.0, countingDown, non-looping, cb, unpaused)`:
`Update(3.0)` returns `false` with `m_CurrentTime = 2.0`; a second
`Update(3.0)` runs the callback, returns `true`, `m_CurrentTime = -1.0`. -/
theorem Update_countDown_witness :
    Update (World.init (Timer.mk5 5 true false (some 7) false)) 3
      = (.ok false, ⟨⟨5, 2, true, false, false, false, some 7⟩, []⟩) ∧
    Update ⟨⟨5, 2, true, false, false, false, some 7⟩, []⟩ 3
      = (.ok true, ⟨⟨5, -1, true, false, false, false, some 7⟩, [7]⟩) := by
  constructor
  · have h := (Update_countDown (World.init (Timer.mk5 5 true false (some 7) false)) 3 7
      rfl rfl (by norm_num [World.init, Timer.mk5]) rfl).1
      (by norm_num [World.init, Timer.mk5])
    rw [h]; norm_num [World.init, Timer.mk5]
  · have h := (Update_countDown ⟨⟨5, 2, true, false, false, false, some 7⟩, []⟩ 3 7
      rfl rfl (by norm_num) rfl).2.1 (by norm_num) rfl
    rw [h]; norm_num

/-- C3: on an unpaused count-up timer with `m_CurrentTime = c ≤ m_TargetTime = T`
and a callback set, `Update` with elapsed `dt`: when `c + dt ≤ T` it returns
`false` with `m_CurrentTime = c + dt` and runs no callback; when `c + dt > T`
it runs the callback exactly once, and then a looping timer is reset
(`m_CurrentTime = 0`, overshoot discarded, `m_Paused = false`) and `Update`
returns `false`, while a non-looping timer returns `true`. -/
theorem Update_countUp (w : World) (dt : ℚ) (f : Nat)
    (hp : w.timer.m_Paused = false) (hcd : w.timer.m_CountingDown = false)
    (hc : w.timer.m_CurrentTime ≤ w.timer.m_TargetTime)
    (hf : w.timer.m_ExcecutingFunction = some f) :
    (w.timer.m_CurrentTime + dt ≤ w.timer.m_TargetTime →
      Update w dt = (.ok false,
        { timer := { w.timer with m_CurrentTime := w.timer.m_CurrentTime + dt },
          fired := w.fired })) ∧
    (w.timer.m_TargetTime < w.timer.m_CurrentTime + dt → w.timer.m_Looping = true →
      Update w dt = (.ok false,
        { timer := { w.timer with m_CurrentTime := 0, m_Paused := false },
          fired := w.fired ++ [f] })) ∧
    (w.timer.m_TargetTime < w.timer.m_CurrentTime + dt → w.timer.m_Looping = false →
      Update w dt = (.ok true,
        { timer := { w.timer with m_CurrentTime := w.timer.m_CurrentTime + dt },
          fired := w.fired ++ [f] })) :=
  Update_countUp_aux w dt f hp hcd hc hf

/-- Scenario B: `Timer(2.0, count-up, looping, cb, unpaused)`: `Update(2.5)`
runs the callback, leaves `m_CurrentTime = 0` and returns `false`. -/
theorem Update_countUp_witness :
    Update (World.init (Timer.mk5 2 false true (some 7) false)) (5 / 2)
      = (.ok false, ⟨⟨2, 0, false, true, false, false, some 7⟩, [7]⟩) := by
  have h := (Update_countUp (World.init (Timer.mk5 2 false true (some 7) false)) (5 / 2) 7
    rfl rfl (by norm_num [World.init, Timer.mk5]) rfl).2.1
    (by norm_num [World.init, Timer.mk5]) rfl
  rw [h]; norm_num [World.init, Timer.mk5]

/-- C4, as stated, fails: `Timer(5.0, countingDown, non-looping, cb, unpaused)`
driven by the positive increments `2.0, 3.0`, which sum to exactly the target:
both `Update` calls return `false`, the callback never runs and
`m_CurrentTime` ends at exactly `0`. -/
theorem exact_sum_does_not_complete :
    (∀ d ∈ ([2, 3] : List ℚ), 0 < d) ∧ ([2, 3] : List ℚ).sum = 5 ∧
    UpdateAll (World.init (Timer.mk5 5 true false (some 7) false)) [2, 3]
      = ([.ok false, .ok false], ⟨⟨5, 0, true, false, false, false, some 7⟩, []⟩) := by
  norm_num [UpdateAll, Update, World.init, Timer.mk5]

/-- C5: a looping, unpaused timer (either direction) with a callback `f`, driven
through any finite sequence of `Update` calls: every call is made and returns,
the callback log grows by exactly one `f` per call that crossed the completion
boundary, and immediately after each such call `m_CurrentTime` equals the
direction-appropriate reset value (`m_TargetTime` counting down, `0` counting
up). -/
theorem looping_fires_once_per_crossing (w : World) (f : Nat) (ds : List ℚ)
    (hp : w.timer.m_Paused = false) (hl : w.timer.m_Looping = true)
    (hf : w.timer.m_ExcecutingFunction = some f) :
    (trace w ds).length = ds.length ∧
    (UpdateAll w ds).2.fired = w.fired ++
      List.replicate ((trace w ds).countP
        (fun c => crossesBoundary c.pre.timer c.seconds)) f ∧
    (∀ c ∈ trace w ds, crossesBoundary c.pre.timer c.seconds = true →
      c.post.timer.m_CurrentTime = resetValue w.timer) :=
  trace_looping f ds w hp hl hf

theorem looping_fires_once_per_crossing_witness :
    ((trace (World.init (Timer.mk5 2 false true (some 7) false)) [5 / 2, 1, 3 / 2]).length = 3 ∧
    (UpdateAll (World.init (Timer.mk5 2 false true (some 7) false)) [5 / 2, 1, 3 / 2]).2.fired
      = [] ++ List.replicate
        ((trace (World.init (Timer.mk5 2 false true (some 7) false)) [5 / 2, 1, 3 / 2]).countP
          (fun c => crossesBoundary c.pre.timer c.seconds)) 7 ∧
    (∀ c ∈ trace (World.init (Timer.mk5 2 false true (some 7) false)) [5 / 2, 1, 3 / 2],
      crossesBoundary c.pre.timer c.seconds = true →
        c.post.timer.m_CurrentTime
          = resetValue (World.init (Timer.mk5 2 false true (some 7) false)).timer)) ∧
    UpdateAll (World.init (Timer.mk5 2 false true (some 7) false)) [5 / 2, 1, 3 / 2]
      = ([.ok false, .ok false, .ok false],
          ⟨⟨2, 0, false, true, false, false, some 7⟩, [7, 7]⟩) :=
  ⟨looping_fires_once_per_crossing (World.init (Timer.mk5 2 false true (some 7) false)) 7
    [5 / 2, 1, 3 / 2] rfl rfl rfl,
   by norm_num [UpdateAll, Update, complete, Timer.Reset, Timer.SetPaused, World.init,
     Timer.mk5]⟩

/-- C6, as stated, fails: a looping count-up timer `Timer(10.0, count-up,
looping, cb, unpaused)` is advanced by `Update(5.0)` (returns `false`,
`m_CurrentTime = 5`), its target is lowered by `SetTargetTime(3.0, false,
false)`, and the next `Update(1.0)` returns `true` although `m_Looping` is
`true`. -/
theorem looping_Update_can_return_true :
    Update (World.init (Timer.mk5 10 false true (some 7) false)) 5
      = (.ok false, ⟨⟨10, 5, false, true, false, false, some 7⟩, []⟩) ∧
    Timer.SetTargetTime ⟨10, 5, false, true, false, false, some 7⟩ 3 false false
      = ⟨3, 5, false, true, false, false, some 7⟩ ∧
    Update ⟨⟨3, 5, false, true, false, false, some 7⟩, []⟩ 1
      = (.ok true, ⟨⟨3, 5, false, true, false, false, some 7⟩, []⟩) := by
  norm_num [Update, World.init, Timer.mk5, Timer.SetTargetTime]

/-- C6 (amended): for a timer with a callback set, `Update` returns `true`
exactly when the timer is unpaused and either its current time was already past
its boundary before the call, or it is non-looping and this call moved the
current time across the boundary.  Whenever `Update` returns `true` the timer is
afterwards unpaused with its current time past the boundary; for a non-looping
timer `Update` returns `true` iff afterwards the timer is unpaused with its
current time past the boundary; a looping timer returns `true` iff it is
unpaused and was already past its boundary. -/
theorem Update_true_iff (w : World) (dt : ℚ) (f : Nat)
    (hf : w.timer.m_ExcecutingFunction = some f) :
    ((Update w dt).1 = .ok true ↔
      w.timer.m_Paused = false ∧
        (pastBoundary w.timer ∨
          (w.timer.m_Looping = false ∧ crossesBoundary w.timer dt = true))) ∧
    ((Update w dt).1 = .ok true →
      (Update w dt).2.timer.m_Paused = false ∧ pastBoundary (Update w dt).2.timer) ∧
    (w.timer.m_Looping = false →
      ((Update w dt).1 = .ok true ↔
        (Update w dt).2.timer.m_Paused = false ∧ (Update w dt).2.timer.m_Looping = false ∧
          pastBoundary (Update w dt).2.timer)) ∧
    (w.timer.m_Looping = true →
      ((Update w dt).1 = .ok true ↔
        w.timer.m_Paused = false ∧ pastBoundary w.timer)) := by
  obtain ⟨⟨T, c, cd, l, p, i, fn⟩, fired⟩ := w
  simp only at hf
  subst hf
  cases p
  · cases cd
    · by_cases h1 : c ≤ T <;> by_cases h2 : T < c + dt <;> cases l <;>
        simp [Update, complete, pastBoundary, crossesBoundary, Timer.Reset, Timer.SetPaused,
          h1, h2] <;>
        linarith
    · by_cases h1 : 0 ≤ c <;> by_cases h2 : c - dt < 0 <;> cases l <;>
        simp [Update, complete, pastBoundary, crossesBoundary, Timer.Reset, Timer.SetPaused,
          h1, h2] <;>
        linarith
  · simp [Update]

theorem Update_true_iff_witness :
    (Update ⟨⟨5, 2, true, false, false, false, some 7⟩, []⟩ 3).1 = .ok true ∧
    ((Update ⟨⟨3, 5, false, true, false, false, some 7⟩, []⟩ 1).1 = .ok true ↔
      (false = false ∧ pastBoundary ⟨3, 5, false, true, false, false, some 7⟩)) :=
  ⟨(Update_true_iff ⟨⟨5, 2, true, false, false, false, some 7⟩, []⟩ 3 7 rfl).1.mpr
      ⟨rfl, Or.inr ⟨rfl, by norm_num [crossesBoundary]⟩⟩,
   (Update_true_iff ⟨⟨3, 5, false, true, false, false, some 7⟩, []⟩ 1 7 rfl).2.2.2 rfl⟩

/-- C7, as stated, fails: `Timer(5.0, countingDown, non-looping, cb, unpaused)`
is not infinite (`m_Infinite = false`), and after `Update(3.0)`, `Update(3.0)`
its `m_CurrentTime` is `-1`, outside `[0, 5]`. -/
theorem currentTime_leaves_range :
    (Timer.mk5 5 true false (some 7) false).m_Infinite = false ∧
    (UpdateAll (World.init (Timer.mk5 5 true false (some 7) false)) [3, 3]).2.timer.m_CurrentTime
      = -1 ∧
    ¬ inRange (UpdateAll (World.init (Timer.mk5 5 true false (some 7) false)) [3, 3]).2.timer := by
  norm_num [UpdateAll, Update, complete, World.init, Timer.mk5, inRange]

/-- C7 (amended): for a timer with `m_TargetTime > 0`, `Reset` leaves
`m_CurrentTime` in `[0, m_TargetTime]`; an `Update` call with elapsed `dt ≥ 0`
made while `m_CurrentTime` is in `[0, m_TargetTime]` leaves it in that interval
whenever the call returns `false`, and leaves it outside the interval (past the
boundary, unclamped) whenever the call returns `true`. -/
theorem currentTime_range (t : Timer) (hT : 0 < t.m_TargetTime) :
    (∀ paused : Bool, inRange (t.Reset paused)) ∧
    (∀ (fired : List Nat) (dt : ℚ), 0 ≤ dt → inRange t →
      ((Update ⟨t, fired⟩ dt).1 = .ok false → inRange (Update ⟨t, fired⟩ dt).2.timer) ∧
      ((Update ⟨t, fired⟩ dt).1 = .ok true → ¬ inRange (Update ⟨t, fired⟩ dt).2.timer)) := by
  obtain ⟨T, c, cd, l, p, i, fn⟩ := t
  simp only at hT
  constructor
  · intro paused
    cases cd <;> simp [Timer.Reset, Timer.SetPaused, inRange, hT.le]
  · rintro fired dt hdt ⟨h0, h1⟩
    simp only at h0 h1
    cases p
    · cases cd
      · by_cases h2 : T < c + dt <;> cases l <;> cases fn <;>
          simp [Update, complete, inRange, Timer.Reset, Timer.SetPaused, h0, h1, h2] <;>
          first
            | linarith
            | (constructor <;> linarith)
      · by_cases h2 : c - dt < 0 <;> cases l <;> cases fn <;>
          simp [Update, complete, inRange, Timer.Reset, Timer.SetPaused, h0, h1, h2] <;>
          first
            | linarith
            | (constructor <;> linarith)
            | (intro h3; linarith)
    · simp [Update, inRange, h0, h1]

theorem currentTime_range_witness :
    (∀ paused : Bool, inRange ((Timer.mk5 2 false true (some 7) false).Reset paused)) ∧
    (∀ (fired : List Nat) (dt : ℚ), 0 ≤ dt → inRange (Timer.mk5 2 false true (some 7) false) →
      ((Update ⟨Timer.mk5 2 false true (some 7) false, fired⟩ dt).1 = .ok false →
        inRange (Update ⟨Timer.mk5 2 false true (some 7) false, fired⟩ dt).2.timer) ∧
      ((Update ⟨Timer.mk5 2 false true (some 7) false, fired⟩ dt).1 = .ok true →
        ¬ inRange (Update ⟨Timer.mk5 2 false true (some 7) false, fired⟩ dt).2.timer)) :=
  currentTime_range (Timer.mk5 2 false true (some 7) false) (by norm_num [Timer.mk5])

/-- C8: the code at the failing input.  `Timer(0, countingDown, non-looping, cb,
unpaused)` is constructed with `m_Infinite = true`, yet its first `Update(1.0)`
takes `m_CurrentTime` from `0` to `-1`, runs the callback and returns `true`;
the count-up timer `Timer(0, count-up, non-looping, cb, unpaused)` completes on
its first `Update(1.0)` in the same way. -/
theorem infinite_timer_completes :
    (Timer.mk5 0 true false (some 7) false).m_Infinite = true ∧
    Update (World.init (Timer.mk5 0 true false (some 7) false)) 1
      = (.ok true, ⟨⟨0, -1, true, false, false, true, some 7⟩, [7]⟩) ∧
    Update (World.init (Timer.mk5 0 false false (some 7) false)) 1
      = (.ok true, ⟨⟨0, 1, false, false, false, true, some 7⟩, [7]⟩) := by
  norm_num [Update, complete, World.init, Timer.mk5]

/-- C9, as stated, fails: on the default-constructed `Timer()` (count-up,
target `1.0`, empty callback) `Update(2.0)` advances `m_CurrentTime` to `2` and
then throws `std::bad_function_call` out of `Update`. -/
theorem unset_callback_throws :
    Update (World.init Timer.default) 2
      = (.error .bad_function_call, ⟨⟨1, 2, false, false, false, false, none⟩, []⟩) := by
  norm_num [Update, complete, World.init, Timer.default]

/-- C9 (amended): for a timer whose callback is unset, an `Update` call that
does not trigger completion returns its normal boolean result and runs nothing:
on a paused timer it returns `false` and changes nothing; on an unpaused timer
already past its boundary it returns `true` and changes nothing; on an unpaused
running timer that the call does not take across the boundary it returns
`false` with `m_CurrentTime` advanced by `dt`.  An `Update` call on an unpaused
timer that crosses the boundary stores the advanced `m_CurrentTime` and then
throws `std::bad_function_call`: no `Reset` is applied and no value is
returned. -/
theorem Update_unset_callback (w : World) (dt : ℚ)
    (hf : w.timer.m_ExcecutingFunction = none) :
    (w.timer.m_Paused = true → Update w dt = (.ok false, w)) ∧
    (w.timer.m_Paused = false → pastBoundary w.timer → Update w dt = (.ok true, w)) ∧
    (w.timer.m_Paused = false → ¬ pastBoundary w.timer →
      crossesBoundary w.timer dt = false →
      Update w dt = (.ok false,
        { timer := { w.timer with
            m_CurrentTime := if w.timer.m_CountingDown then w.timer.m_CurrentTime - dt
              else w.timer.m_CurrentTime + dt },
          fired := w.fired })) ∧
    (w.timer.m_Paused = false → crossesBoundary w.timer dt = true →
      Update w dt = (.error .bad_function_call,
        { timer := { w.timer with
            m_CurrentTime := if w.timer.m_CountingDown then w.timer.m_CurrentTime - dt
              else w.timer.m_CurrentTime + dt },
          fired := w.fired })) := by
  refine ⟨fun hp => Update_of_paused w dt hp,
    fun hp hpast => Update_of_pastBoundary w dt hp hpast, ?_, ?_⟩
  · obtain ⟨⟨T, c, cd, l, p, i, fn⟩, fired⟩ := w
    simp only at hf
    subst hf
    intro hp
    simp only at hp
    subst hp
    cases cd
    · by_cases h1 : c ≤ T <;> by_cases h2 : T < c + dt <;>
        simp [Update, complete, crossesBoundary, pastBoundary, h1, h2]
    · by_cases h1 : 0 ≤ c <;> by_cases h2 : c - dt < 0 <;>
        simp [Update, complete, crossesBoundary, pastBoundary, h1, h2]
  · obtain ⟨⟨T, c, cd, l, p, i, fn⟩, fired⟩ := w
    simp only at hf
    subst hf
    intro hp
    simp only at hp
    subst hp
    cases cd
    · by_cases h1 : c ≤ T <;> by_cases h2 : T < c + dt <;>
        simp [Update, complete, crossesBoundary, h1, h2]
    · by_cases h1 : 0 ≤ c <;> by_cases h2 : c - dt < 0 <;>
        simp [Update, complete, crossesBoundary, h1, h2]

/-- The default-constructed `Timer()` (count-up, target `1`, no callback):
`Update(2.0)` throws after storing `2`; `Update(0.5)` returns `false` with
`m_CurrentTime = 0.5`; paused, it returns `false` unchanged; and once at
`m_CurrentTime = 2` (past the target) it returns `true` unchanged. -/
theorem Update_unset_callback_witness :
    Update (World.init Timer.default) 2
      = (.error .bad_function_call, ⟨⟨1, 2, false, false, false, false, none⟩, []⟩) ∧
    Update (World.init Timer.default) (1 / 2)
      = (.ok false, ⟨⟨1, 1 / 2, false, false, false, false, none⟩, []⟩) ∧
    Update ⟨⟨1, 0, false, false, true, false, none⟩, []⟩ 2
      = (.ok false, ⟨⟨1, 0, false, false, true, false, none⟩, []⟩) ∧
    Update ⟨⟨1, 2, false, false, false, false, none⟩, []⟩ 2
      = (.ok true, ⟨⟨1, 2, false, false, false, false, none⟩, []⟩) := by
  refine ⟨?_, ?_, ?_, ?_⟩
  · rw [(Update_unset_callback (World.init Timer.default) 2 rfl).2.2.2 rfl
      (by norm_num [crossesBoundary, World.init, Timer.default])]
    norm_num [World.init, Timer.default]
  · rw [(Update_unset_callback (World.init Timer.default) (1 / 2) rfl).2.2.1 rfl
      (by norm_num [pastBoundary, World.init, Timer.default])
      (by norm_num [crossesBoundary, World.init, Timer.default])]
    norm_num [World.init, Timer.default]
  · exact (Update_unset_callback ⟨⟨1, 0, false, false, true, false, none⟩, []⟩ 2 rfl).1 rfl
  · exact (Update_unset_callback ⟨⟨1, 2, false, false, false, false, none⟩, []⟩ 2 rfl).2.1 rfl
      (Or.inr ⟨rfl, by norm_num⟩)

/-- C10, as stated, fails: `Timer(-1.0, countingDown, non-looping, cb,
unpaused)`: the first `Update(1.0)` returns `true` but does not run the callback
(and changes nothing). -/
theorem negative_target_skips_callback :
    Update (World.init (Timer.mk5 (-1) true false (some 7) false)) 1
      = (.ok true, ⟨⟨-1, -1, true, false, false, false, some 7⟩, []⟩) := by
  norm_num [Update, World.init, Timer.mk5]

/-- C10 (amended): for an unpaused, non-looping timer constructed with
`countingDown = true`, a callback and `targetTime ≤ 0`, the first `Update` with
positive elapsed time returns `true` without failing; when `targetTime = 0` it
runs the callback exactly once (leaving `m_CurrentTime = -dt`), when
`targetTime < 0` it does not run the callback and changes no field. -/
theorem degenerate_countDown_first_Update (T dt : ℚ) (f : Nat)
    (hT : T ≤ 0) (hdt : 0 < dt) :
    (Update (World.init (Timer.mk5 T true false (some f) false)) dt).1 = .ok true ∧
    (T = 0 →
      Update (World.init (Timer.mk5 T true false (some f) false)) dt
        = (.ok true, ⟨⟨0, -dt, true, false, false, true, some f⟩, [f]⟩)) ∧
    (T < 0 →
      Update (World.init (Timer.mk5 T true false (some f) false)) dt
        = (.ok true, World.init (Timer.mk5 T true false (some f) false))) := by
  have h0 : T = 0 →
      Update (World.init (Timer.mk5 T true false (some f) false)) dt
        = (.ok true, ⟨⟨0, -dt, true, false, false, true, some f⟩, [f]⟩) := by
    intro h
    subst h
    simp [Update, complete, World.init, Timer.mk5, hdt]
  have h1 : T < 0 →
      Update (World.init (Timer.mk5 T true false (some f) false)) dt
        = (.ok true, World.init (Timer.mk5 T true false (some f) false)) := by
    intro h
    simp [Update, World.init, Timer.mk5, not_le.mpr h]
  refine ⟨?_, h0, h1⟩
  rcases hT.lt_or_eq with h | h
  · rw [h1 h]
  · rw [h0 h]

theorem degenerate_countDown_first_Update_witness :
    Update (World.init (Timer.mk5 (-2) true false (some 7) false)) 1
      = (.ok true, World.init (Timer.mk5 (-2) true false (some 7) false)) ∧
    Update (World.init (Timer.mk5 0 true false (some 7) false)) 1
      = (.ok true, ⟨⟨0, -1, true, false, false, true, some 7⟩, [7]⟩) :=
  ⟨(degenerate_countDown_first_Update (-2) 1 7 (by norm_num) (by norm_num)).2.2 (by norm_num),
   (degenerate_countDown_first_Update 0 1 7 (by norm_num) (by norm_num)).2.1 rfl⟩

/-- C11: for every timer state and every boolean `p`, `Reset(p)` yields
`m_CurrentTime = m_TargetTime` when counting down and `0` otherwise, sets
`m_Paused` to `p`, and leaves `m_TargetTime`, `m_CountingDown`, `m_Looping`,
`m_Infinite` and the callback unchanged, whatever the prior `m_CurrentTime` and
`m_Paused` were. -/
theorem Reset_correct (t : Timer) (p : Bool) :
    (t.Reset p).m_CurrentTime = (if t.m_CountingDown then t.m_TargetTime else 0) ∧
    (t.Reset p).m_Paused = p ∧
    (t.Reset p).m_TargetTime = t.m_TargetTime ∧
    (t.Reset p).m_CountingDown = t.m_CountingDown ∧
    (t.Reset p).m_Looping = t.m_Looping ∧
    (t.Reset p).m_Infinite = t.m_Infinite ∧
    (t.Reset p).m_ExcecutingFunction = t.m_ExcecutingFunction ∧
    (∀ (c : ℚ) (q : Bool),
      Timer.Reset { t with m_CurrentTime := c, m_Paused := q } p = t.Reset p) := by
  simp [Timer.Reset, Timer.SetPaused]

/-- Whenever `Update` returns `true`, the timer it leaves is unpaused with its
current time past the boundary. -/
theorem pastBoundary_of_Update_true (w : World) (dt : ℚ)
    (h : (Update w dt).1 = .ok true) :
    (Update w dt).2.timer.m_Paused = false ∧ pastBoundary (Update w dt).2.timer := by
  obtain ⟨⟨T, c, cd, l, p, i, fn⟩, fired⟩ := w
  revert h
  cases p
  · cases cd
    · by_cases h1 : c ≤ T <;> by_cases h2 : T < c + dt <;> cases l <;> cases fn <;>
        simp [Update, complete, pastBoundary, Timer.Reset, Timer.SetPaused, h1, h2] <;>
        linarith
    · by_cases h1 : 0 ≤ c <;> by_cases h2 : c - dt < 0 <;> cases l <;> cases fn <;>
        simp [Update, complete, pastBoundary, Timer.Reset, Timer.SetPaused, h1, h2] <;>
        linarith
  · simp [Update]

/-- One `Update` call on an unpaused non-looping timer with a callback set: it
returns normally, keeps the flags and the callback, runs the callback exactly
when the call crosses the boundary, and a crossing call leaves the timer past
its boundary. -/
theorem Update_nonLooping_step (w : World) (d : ℚ) (f : Nat)
    (hp : w.timer.m_Paused = false) (hl : w.timer.m_Looping = false)
    (hf : w.timer.m_ExcecutingFunction = some f) :
    ∃ b w1, Update w d = (.ok b, w1) ∧
      w1.timer.m_Paused = false ∧ w1.timer.m_Looping = false ∧
      w1.timer.m_ExcecutingFunction = some f ∧
      w1.fired = w.fired ++ (if crossesBoundary w.timer d then [f] else []) ∧
      (crossesBoundary w.timer d = true → pastBoundary w1.timer) := by
  cases hcd : w.timer.m_CountingDown
  · by_cases hc : w.timer.m_CurrentTime ≤ w.timer.m_TargetTime
    · by_cases hx : w.timer.m_TargetTime < w.timer.m_CurrentTime + d
      · exact ⟨true, _, (Update_countUp_aux w d f hp hcd hc hf).2.2 hx hl,
          by simp [hp, hl, hf, hcd, crossesBoundary, pastBoundary, hc, hx]⟩
      · exact ⟨false, _, (Update_countUp_aux w d f hp hcd hc hf).1 (not_lt.mp hx),
          by simp [hp, hl, hf, hcd, crossesBoundary, hc, hx]⟩
    · exact ⟨true, w, Update_of_pastBoundary w d hp (Or.inr ⟨hcd, not_le.mp hc⟩),
        by simp [hp, hl, hf, hcd, crossesBoundary, hc]⟩
  · by_cases hc : 0 ≤ w.timer.m_CurrentTime
    · by_cases hx : w.timer.m_CurrentTime - d < 0
      · exact ⟨true, _, (Update_countDown_aux w d f hp hcd hc hf).2.1 hx hl,
          by simp [hp, hl, hf, hcd, crossesBoundary, pastBoundary, hc, hx]⟩
      · exact ⟨false, _, (Update_countDown_aux w d f hp hcd hc hf).1 (not_lt.mp hx),
          by simp [hp, hl, hf, hcd, crossesBoundary, hc, hx]⟩
    · exact ⟨true, w, Update_of_pastBoundary w d hp (Or.inl ⟨hcd, not_le.mp hc⟩),
        by simp [hp, hl, hf, hcd, crossesBoundary, hc]⟩

/-- A non-looping unpaused timer with a callback `f`, driven through any
sequence of `Update` calls: the callback log grows by exactly one `f` when some
call crossed the boundary and not at all otherwise. -/
theorem UpdateAll_nonLooping_fired (f : Nat) (ds : List ℚ) :
    ∀ w : World, w.timer.m_Paused = false → w.timer.m_Looping = false →
      w.timer.m_ExcecutingFunction = some f →
      (UpdateAll w ds).2.fired = w.fired ++
        (if (trace w ds).any (fun c => crossesBoundary c.pre.timer c.seconds)
          then [f] else []) := by
  induction ds with
  | nil => intro w _ _ _; simp [trace, UpdateAll]
  | cons d ds ih =>
    intro w hp hl hf
    obtain ⟨b, w1, hU, hp1, hl1, hf1, hfired, hpast⟩ :=
      Update_nonLooping_step w d f hp hl hf
    by_cases hx : crossesBoundary w.timer d = true
    · have hall := UpdateAll_of_pastBoundary w1 ds hp1 (hpast hx)
      simp [trace, UpdateAll, hU, hall, hfired, hx]
    · have hfired1 : w1.fired = w.fired := by simpa [hx] using hfired
      simp [trace, UpdateAll, hU, ih w1 hp1 hl1 hf1, hfired1, hx]

/-- C12: on an unpaused timer whose state is already past its boundary
(counting down with `m_CurrentTime < 0`, or counting up with `m_CurrentTime >
m_TargetTime`) every `Update` call, with any elapsed value, returns `true`,
runs no callback and leaves every field unchanged, for one call or any number
of them; a timer for which `Update` has just returned `true` is in such a
state; and so over any sequence of `Update` calls the callback of a
non-looping timer runs exactly once when some call crossed the boundary and
never otherwise. -/
theorem expired_Update_noop :
    (∀ w : World, w.timer.m_Paused = false → pastBoundary w.timer →
      (∀ dt : ℚ, Update w dt = (.ok true, w)) ∧
      (∀ ds : List ℚ, UpdateAll w ds = (List.replicate ds.length (.ok true), w))) ∧
    (∀ (w : World) (dt : ℚ), (Update w dt).1 = .ok true →
      (Update w dt).2.timer.m_Paused = false ∧ pastBoundary (Update w dt).2.timer) ∧
    (∀ (w : World) (f : Nat) (ds : List ℚ), w.timer.m_Paused = false →
      w.timer.m_Looping = false → w.timer.m_ExcecutingFunction = some f →
      (UpdateAll w ds).2.fired = w.fired ++
        (if (trace w ds).any (fun c => crossesBoundary c.pre.timer c.seconds)
          then [f] else [])) :=
  ⟨fun w hp h =>
      ⟨fun dt => Update_of_pastBoundary w dt hp h,
       fun ds => UpdateAll_of_pastBoundary w ds hp h⟩,
   pastBoundary_of_Update_true,
   fun w f ds hp hl hf => UpdateAll_nonLooping_fired f ds w hp hl hf⟩

/-- Scenario A continued: after the completing call the timer sits at
`m_CurrentTime = -1`; further `Update` calls return `true` and change nothing,
and over the whole run `3, 3, 3, 3` the callback has run exactly once. -/
theorem expired_Update_noop_witness :
    UpdateAll ⟨⟨5, -1, true, false, false, false, some 7⟩, [7]⟩ [3, 3]
      = ([.ok true, .ok true], ⟨⟨5, -1, true, false, false, false, some 7⟩, [7]⟩) ∧
    (UpdateAll (World.init (Timer.mk5 5 true false (some 7) false)) [3, 3, 3, 3]).2.fired
      = [7] := by
  constructor
  · exact (expired_Update_noop.1 ⟨⟨5, -1, true, false, false, false, some 7⟩, [7]⟩ rfl
      (Or.inl ⟨rfl, by norm_num⟩)).2 [3, 3]
  · rw [expired_Update_noop.2.2 (World.init (Timer.mk5 5 true false (some 7) false)) 7
      [3, 3, 3, 3] rfl rfl rfl]
    norm_num [trace, Update, complete, crossesBoundary, World.init, Timer.mk5]

/-- C13: `SetTargetTime(x, reset, paused)` sets `m_TargetTime` to `x`; with
`reset = false` nothing else changes (in particular `m_CurrentTime` and
`m_Paused`); with `reset = true` the result is `Reset(paused)` applied to the
timer with the new target, so `m_CurrentTime` is `x` when counting down and `0`
otherwise and `m_Paused` is the given value. -/
theorem SetTargetTime_correct (t : Timer) (x : ℚ) (reset paused : Bool) :
    (t.SetTargetTime x reset paused).m_TargetTime = x ∧
    t.SetTargetTime x false paused = { t with m_TargetTime := x } ∧
    (t.SetTargetTime x false paused).m_CurrentTime = t.m_CurrentTime ∧
    (t.SetTargetTime x false paused).m_Paused = t.m_Paused ∧
    t.SetTargetTime x true paused = Timer.Reset { t with m_TargetTime := x } paused ∧
    (t.SetTargetTime x true paused).m_CurrentTime = (if t.m_CountingDown then x else 0) ∧
    (t.SetTargetTime x true paused).m_Paused = paused := by
  cases reset <;> simp [Timer.SetTargetTime, Timer.Reset, Timer.SetPaused]

/-- Update never writes `m_Infinite`, whichever path it takes (the throwing
one included). -/
theorem Update_m_Infinite (w : World) (dt : ℚ) :
    (Update w dt).2.timer.m_Infinite = w.timer.m_Infinite := by
  unfold Update complete
  simp only []
  split_ifs <;> first | rfl | (split <;> rfl)

/-- C14: no operation on an existing timer changes `m_Infinite`: not `Update`,
`Reset`, `SetPaused`, `SetCountingDown`, `SetLoop`, `SetTargetTime` or
`SetFunction`.  So after `SetTargetTime` the flag of a constructed timer still
says whether the constructor's target was `0`: `SetTargetTime(0, ..)` on a
timer constructed with a non-zero target leaves it `false`, and
`SetTargetTime(x, ..)` with `x ≠ 0` on a timer constructed with target `0`
leaves it `true`. -/
theorem m_Infinite_fixed (t : Timer) :
    (∀ (fired : List Nat) (dt : ℚ),
      (Update ⟨t, fired⟩ dt).2.timer.m_Infinite = t.m_Infinite) ∧
    (∀ p : Bool, (t.Reset p).m_Infinite = t.m_Infinite) ∧
    (∀ p : Bool, (t.SetPaused p).m_Infinite = t.m_Infinite) ∧
    (∀ c : Bool, (t.SetCountingDown c).m_Infinite = t.m_Infinite) ∧
    (∀ l : Bool, (t.SetLoop l).m_Infinite = t.m_Infinite) ∧
    (∀ (x : ℚ) (r p : Bool), (t.SetTargetTime x r p).m_Infinite = t.m_Infinite) ∧
    (∀ g : Option Nat, (t.SetFunction g).m_Infinite = t.m_Infinite) ∧
    (∀ (T x : ℚ) (cd l q r p : Bool) (g : Option Nat),
      ((Timer.mk5 T cd l g q).SetTargetTime x r p).m_Infinite
        = (if T = 0 then true else false)) := by
  refine ⟨fun fired dt => Update_m_Infinite ⟨t, fired⟩ dt, ?_, ?_, ?_, ?_, ?_, ?_, ?_⟩
  · intro p; rfl
  · intro p; rfl
  · intro c; rfl
  · intro l; rfl
  · intro x r p; cases r <;> rfl
  · intro g; rfl
  · intro T x cd l q r p g; cases r <;> rfl

/-- C16: the five-argument constructor yields a timer whose `m_CurrentTime` is
`targetTime` when `countingDown` and `0` otherwise, whose `m_Infinite` is
`true` exactly when `targetTime = 0`, and whose `m_TargetTime`,
`m_CountingDown`, `m_Looping`, `m_Paused` and callback are the arguments. -/
theorem mk5_correct (targetTime : ℚ) (countingDown loop : Bool) (func : Option Nat)
    (paused : Bool) :
    (Timer.mk5 targetTime countingDown loop func paused).m_CurrentTime
      = (if countingDown then targetTime else 0) ∧
    ((Timer.mk5 targetTime countingDown loop func paused).m_Infinite = true
      ↔ targetTime = 0) ∧
    (Timer.mk5 targetTime countingDown loop func paused).m_TargetTime = targetTime ∧
    (Timer.mk5 targetTime countingDown loop func paused).m_CountingDown = countingDown ∧
    (Timer.mk5 targetTime countingDown loop func paused).m_Looping = loop ∧
    (Timer.mk5 targetTime countingDown loop func paused).m_Paused = paused ∧
    (Timer.mk5 targetTime countingDown loop func paused).m_ExcecutingFunction = func := by
  simp [Timer.mk5]

/-- C17: `Update` never consults `m_Infinite`.  Replacing the flag by any value
`i` before the call changes nothing but the flag itself afterwards: the
returned value (or exception), the callback log, `m_CurrentTime`, `m_Paused`
and every other field are the same. -/
theorem Update_ignores_m_Infinite (w : World) (i : Bool) (dt : ℚ) :
    Update { w with timer := { w.timer with m_Infinite := i } } dt
      = ((Update w dt).1,
          { timer := { (Update w dt).2.timer with m_Infinite := i },
            fired := (Update w dt).2.fired }) := by
  obtain ⟨⟨T, c, cd, l, p, j, fn⟩, fired⟩ := w
  cases p
  · cases cd
    · by_cases h1 : c ≤ T <;> by_cases h2 : T < c + dt <;> cases l <;> cases fn <;>
        simp [Update, complete, Timer.Reset, Timer.SetPaused, h1, h2]
    · by_cases h1 : 0 ≤ c <;> by_cases h2 : c - dt < 0 <;> cases l <;> cases fn <;>
        simp [Update, complete, Timer.Reset, Timer.SetPaused, h1, h2]
  · simp [Update]

/-- C18: `Update` leaves `m_TargetTime`, `m_CountingDown`, `m_Looping`,
`m_Paused` and the callback unchanged (and `m_Infinite` too): the timer after
the call is the timer before it with at most `m_CurrentTime` replaced.  This
holds on every path, the looping one (whose `Reset(false)` is reached only with
`m_Paused` already `false`) and the throwing one included. -/
theorem Update_frame (w : World) (dt : ℚ) :
    (Update w dt).2.timer
      = { w.timer with m_CurrentTime := (Update w dt).2.timer.m_CurrentTime } ∧
    (Update w dt).2.timer.m_TargetTime = w.timer.m_TargetTime ∧
    (Update w dt).2.timer.m_CountingDown = w.timer.m_CountingDown ∧
    (Update w dt).2.timer.m_Looping = w.timer.m_Looping ∧
    (Update w dt).2.timer.m_Paused = w.timer.m_Paused ∧
    (Update w dt).2.timer.m_ExcecutingFunction = w.timer.m_ExcecutingFunction := by
  obtain ⟨⟨T, c, cd, l, p, j, fn⟩, fired⟩ := w
  cases p
  · cases cd
    · by_cases h1 : c ≤ T <;> by_cases h2 : T < c + dt <;> cases l <;> cases fn <;>
        simp [Update, complete, Timer.Reset, Timer.SetPaused, h1, h2]
    · by_cases h1 : 0 ≤ c <;> by_cases h2 : c - dt < 0 <;> cases l <;> cases fn <;>
        simp [Update, complete, Timer.Reset, Timer.SetPaused, h1, h2]
  · simp [Update]

/-- Discarding the fractional part of a rational: `num.tdiv den` is the floor
of a non-negative value and the ceiling of a negative one. -/
theorem tdiv_num_den (x : ℚ) :
    x.num.tdiv x.den = (if 0 ≤ x then ⌊x⌋ else ⌈x⌉) := by
  by_cases h : 0 ≤ x
  · rw [if_pos h, Int.tdiv_eq_ediv (Rat.num_nonneg.mpr h) (Int.ofNat_nonneg _),
      Rat.floor_def]
  · have hx : 0 ≤ -x := by linarith [not_le.mp h]
    have hn : 0 ≤ (-x).num := Rat.num_nonneg.mpr hx
    have hc : ⌈x⌉ = -⌊-x⌋ := by rw [Int.floor_neg, neg_neg]
    rw [if_neg h, hc, Rat.floor_def, Rat.neg_den, ← Int.tdiv_eq_ediv hn (Int.ofNat_nonneg _),
      Rat.neg_num, Int.neg_tdiv, neg_neg]

theorem neg_tmod_eq (a b : Int) : (-a).tmod b = -(a.tmod b) := by
  rw [Int.tmod_def, Int.tmod_def, Int.neg_tdiv]
  ring

theorem tmod_sixty_bounds (a : Int) :
    -60 < a.tmod 60 ∧ a.tmod 60 < 60 ∧ (0 ≤ a → 0 ≤ a.tmod 60) := by
  refine ⟨?_, Int.tmod_lt_of_pos a (by norm_num), fun h => Int.tmod_nonneg 60 h⟩
  rcases le_or_lt 0 a with h | h
  · have := Int.tmod_nonneg 60 h
    linarith
  · have h1 : (-a).tmod 60 < 60 := Int.tmod_lt_of_pos (-a) (by norm_num)
    rw [neg_tmod_eq] at h1
    linarith

/-- Within the `int32` range the conversion is defined and is truncation toward
zero. -/
theorem toInt32_of_inRange (c : ℚ) (hlo : -2147483648 ≤ c) (hhi : c ≤ 2147483647) :
    toInt32 c = some (if 0 ≤ c then ⌊c⌋ else ⌈c⌉) := by
  have hz := tdiv_num_den c
  have hb : -2147483648 ≤ (if 0 ≤ c then ⌊c⌋ else ⌈c⌉) ∧
      (if 0 ≤ c then ⌊c⌋ else ⌈c⌉) ≤ 2147483647 := by
    by_cases h : 0 ≤ c
    · rw [if_pos h]
      have h1 : (0 : ℤ) ≤ ⌊c⌋ := Int.floor_nonneg.mpr h
      have h2 : ⌊c⌋ ≤ 2147483647 := by
        have : ((⌊c⌋ : ℤ) : ℚ) ≤ ((2147483647 : ℤ) : ℚ) := by
          have := Int.floor_le c
          push_cast
          linarith
        exact_mod_cast this
      constructor <;> linarith
    · rw [if_neg h]
      have h1 : ⌈c⌉ ≤ 0 := Int.ceil_le.mpr (by push_cast; linarith [not_le.mp h])
      have h2 : (-2147483648 : ℤ) ≤ ⌈c⌉ := by
        have : ((-2147483648 : ℤ) : ℚ) ≤ ((⌈c⌉ : ℤ) : ℚ) := by
          have := Int.le_ceil c
          push_cast
          linarith
        exact_mod_cast this
      constructor <;> linarith
  unfold toInt32
  simp only [hz]
  rw [if_pos hb]

/-- C15: for `m_CurrentTime = c` within the `int32` range,
`GetCurrentTotalSeconds` returns `c` truncated toward zero (the floor of a
non-negative `c`, the ceiling of a negative one), `GetCurrentMinutes` returns
that integer divided by `60` and `GetCurrentSeconds` its remainder modulo `60`,
both truncating toward zero; so `minutes * 60 + seconds = total`,
`|seconds| < 60`, and `0 ≤ seconds < 60` when `c ≥ 0`. -/
theorem accessors_truncate (t : Timer)
    (hlo : -2147483648 ≤ t.m_CurrentTime) (hhi : t.m_CurrentTime ≤ 2147483647) :
    ∃ total minutes seconds : Int,
      t.GetCurrentTotalSeconds = some total ∧
      t.GetCurrentMinutes = some minutes ∧
      t.GetCurrentSeconds = some seconds ∧
      total = (if 0 ≤ t.m_CurrentTime then ⌊t.m_CurrentTime⌋ else ⌈t.m_CurrentTime⌉) ∧
      minutes = total.tdiv 60 ∧ seconds = total.tmod 60 ∧
      minutes * 60 + seconds = total ∧ |seconds| < 60 ∧
      (0 ≤ t.m_CurrentTime → 0 ≤ seconds ∧ seconds < 60) := by
  have h := toInt32_of_inRange t.m_CurrentTime hlo hhi
  refine ⟨_, _, _, h, by simp [Timer.GetCurrentMinutes, h], by simp [Timer.GetCurrentSeconds, h],
    rfl, rfl, rfl, Int.tdiv_add_tmod' _ 60, ?_, fun hc => ?_⟩
  · have hb := tmod_sixty_bounds (if 0 ≤ t.m_CurrentTime then ⌊t.m_CurrentTime⌋
      else ⌈t.m_CurrentTime⌉)
    exact abs_lt.mpr ⟨hb.1, hb.2.1⟩
  · have hb := tmod_sixty_bounds (if 0 ≤ t.m_CurrentTime then ⌊t.m_CurrentTime⌋
      else ⌈t.m_CurrentTime⌉)
    rw [if_pos hc] at hb ⊢
    exact ⟨hb.2.2 (Int.floor_nonneg.mpr hc), hb.2.1⟩

/-- Scenario D: `m_CurrentTime = 125.7` gives total seconds `125`, minutes `2`,
seconds `5`. -/
theorem accessors_truncate_witness :
    (∃ total minutes seconds : Int,
      Timer.GetCurrentTotalSeconds ⟨200, 1257 / 10, true, false, false, false, none⟩
        = some total ∧
      Timer.GetCurrentMinutes ⟨200, 1257 / 10, true, false, false, false, none⟩
        = some minutes ∧
      Timer.GetCurrentSeconds ⟨200, 1257 / 10, true, false, false, false, none⟩
        = some seconds ∧
      minutes * 60 + seconds = total ∧ |seconds| < 60) ∧
    Timer.GetCurrentTotalSeconds ⟨200, 1257 / 10, true, false, false, false, none⟩
      = some 125 ∧
    Timer.GetCurrentMinutes ⟨200, 1257 / 10, true, false, false, false, none⟩ = some 2 ∧
    Timer.GetCurrentSeconds ⟨200, 1257 / 10, true, false, false, false, none⟩ = some 5 := by
  refine ⟨?_, ?_, ?_, ?_⟩
  · obtain ⟨total, minutes, seconds, h1, h2, h3, _, _, _, h4, h5, _⟩ :=
      accessors_truncate ⟨200, 1257 / 10, true, false, false, false, none⟩
        (by norm_num) (by norm_num)
    exact ⟨total, minutes, seconds, h1, h2, h3, h4, h5⟩
  · norm_num [Timer.GetCurrentTotalSeconds, toInt32]; decide
  · norm_num [Timer.GetCurrentMinutes, toInt32]; decide
  · norm_num [Timer.GetCurrentSeconds, toInt32]; decide

theorem dvd_succ_iff_mod (m p : Nat) (hp : 0 < p) : p ∣ m + 1 ↔ m % p + 1 = p := by
  have hdm := Nat.div_add_mod m p
  have hlt := Nat.mod_lt m hp
  constructor
  · intro hd
    have h1 : p ∣ p * (m / p) := Dvd.intro _ rfl
    have h2 : p ∣ m + 1 - p * (m / p) := Nat.dvd_sub' hd h1
    have h3 : m + 1 - p * (m / p) = m % p + 1 := by omega
    rw [h3] at h2
    have h4 := Nat.le_of_dvd (Nat.succ_pos _) h2
    omega
  · intro h
    refine ⟨m / p + 1, ?_⟩
    rw [Nat.mul_add, Nat.mul_one]
    omega

theorem le_floor_div_iff (T dt : ℚ) (hT : 0 < T) (hdt : 0 < dt) (k : Nat) :
    k ≤ ⌊T / dt⌋₊ ↔ (k : ℚ) * dt ≤ T := by
  rw [Nat.le_floor_iff (div_pos hT hdt).le, le_div_iff₀ hdt]

/-- Without rounding: one `Update` with elapsed `dt` on a looping timer that is
`r` steps into its period, `r ≤ ⌊T / dt⌋`: either the next step still fits and nothing fires,
or the call crosses the boundary, runs the callback and re-arms the timer. -/
theorem Update_afterSteps (t : Timer) (F : List Nat) (dt : ℚ) (f r : Nat)
    (hp : t.m_Paused = false) (hl : t.m_Looping = true)
    (hf : t.m_ExcecutingFunction = some f)
    (hT : 0 < t.m_TargetTime) (hdt : 0 < dt) (hr : r ≤ ⌊t.m_TargetTime / dt⌋₊) :
    Update ⟨afterSteps t dt r, F⟩ dt =
      (.ok false,
        if r + 1 ≤ ⌊t.m_TargetTime / dt⌋₊ then ⟨afterSteps t dt (r + 1), F⟩
        else ⟨afterSteps t dt 0, F ++ [f]⟩) := by
  have h1 : (r : ℚ) * dt ≤ t.m_TargetTime := (le_floor_div_iff _ dt hT hdt r).mp hr
  have h2 := le_floor_div_iff t.m_TargetTime dt hT hdt (r + 1)
  obtain ⟨T, c, cd, l, p, i, fn⟩ := t
  simp only at hp hl hf hT hr h1 h2
  subst hp hl hf
  push_cast at h2
  by_cases h : r + 1 ≤ ⌊T / dt⌋₊
  · have h3 : ((r : ℚ) + 1) * dt ≤ T := h2.mp h
    rw [if_pos h]
    cases cd
    · have hU := (Update_countUp_aux
        ⟨afterSteps ⟨T, c, false, true, false, i, some f⟩ dt r, F⟩ dt f rfl rfl
        (show (r : ℚ) * dt ≤ T from h1) rfl).1
        (show (r : ℚ) * dt + dt ≤ T by linarith)
      rw [hU]
      simp [afterSteps]
      ring
    · have hU := (Update_countDown_aux
        ⟨afterSteps ⟨T, c, true, true, false, i, some f⟩ dt r, F⟩ dt f rfl rfl
        (show 0 ≤ T - (r : ℚ) * dt by linarith) rfl).1
        (show 0 ≤ T - (r : ℚ) * dt - dt by linarith)
      rw [hU]
      simp [afterSteps]
      ring
  · have h3 : T < ((r : ℚ) + 1) * dt := not_le.mp (fun hle => h (h2.mpr hle))
    rw [if_neg h]
    cases cd
    · have hU := (Update_countUp_aux
        ⟨afterSteps ⟨T, c, false, true, false, i, some f⟩ dt r, F⟩ dt f rfl rfl
        (show (r : ℚ) * dt ≤ T from h1) rfl).2.1
        (show T < (r : ℚ) * dt + dt by linarith) rfl
      rw [hU]
      simp [afterSteps]
    · have hU := (Update_countDown_aux
        ⟨afterSteps ⟨T, c, true, true, false, i, some f⟩ dt r, F⟩ dt f rfl rfl
        (show 0 ≤ T - (r : ℚ) * dt by linarith) rfl).2.2
        (show T - (r : ℚ) * dt - dt < 0 by linarith) rfl
      rw [hU]
      simp [afterSteps]

/-- Without rounding, the closed form of a run with constant elapsed `dt`:
starting `r` steps into the
period, after `m` calls the timer is `(r + m) mod p` steps into the period and
the callback has run `(r + m) / p` times, where `p = ⌊T / dt⌋ + 1`; every call
returns `false`. -/
theorem UpdateAll_afterSteps (t : Timer) (dt : ℚ) (f : Nat)
    (hp : t.m_Paused = false) (hl : t.m_Looping = true)
    (hf : t.m_ExcecutingFunction = some f)
    (hT : 0 < t.m_TargetTime) (hdt : 0 < dt) (m : Nat) :
    ∀ (r : Nat) (F : List Nat), r ≤ ⌊t.m_TargetTime / dt⌋₊ →
      UpdateAll ⟨afterSteps t dt r, F⟩ (List.replicate m dt) =
        (List.replicate m (.ok false),
          ⟨afterSteps t dt ((r + m) % (⌊t.m_TargetTime / dt⌋₊ + 1)),
            F ++ List.replicate ((r + m) / (⌊t.m_TargetTime / dt⌋₊ + 1)) f⟩) := by
  induction m with
  | zero =>
    intro r F hr
    have hlt : r < ⌊t.m_TargetTime / dt⌋₊ + 1 := Nat.lt_succ_of_le hr
    simp [UpdateAll, Nat.mod_eq_of_lt hlt, Nat.div_eq_of_lt hlt]
  | succ m ih =>
    intro r F hr
    have hU := Update_afterSteps t F dt f r hp hl hf hT hdt hr
    by_cases h : r + 1 ≤ ⌊t.m_TargetTime / dt⌋₊
    · rw [if_pos h] at hU
      have e : r + 1 + m = r + (m + 1) := by omega
      simp only [List.replicate_succ, UpdateAll, hU, ih (r + 1) F h, e]
    · rw [if_neg h] at hU
      have e : r + (m + 1) = m + (⌊t.m_TargetTime / dt⌋₊ + 1) := by omega
      simp only [List.replicate_succ, UpdateAll, hU, ih 0 (F ++ [f]) (Nat.zero_le _), e,
        Nat.zero_add, Nat.add_mod_right, Nat.add_div_right _ (Nat.succ_pos _),
        List.append_assoc, List.singleton_append]

theorem afterSteps_zero (t : Timer) (dt : ℚ)
    (hc : t.m_CurrentTime = resetValue t) : afterSteps t dt 0 = t := by
  obtain ⟨T, c, cd, l, p, i, fn⟩ := t
  cases cd <;> simp_all [afterSteps, resetValue]

/-! ## Rounded arithmetic -/

theorem UpdateRounded_id (w : World) (seconds : ℚ) :
    UpdateRounded id w seconds = Update w seconds := rfl

theorem UpdateAllRounded_id (ds : List ℚ) :
    ∀ w : World, UpdateAllRounded id w ds = UpdateAll w ds := by
  induction ds with
  | nil => intro w; rfl
  | cons d ds ih =>
    intro w
    simp only [UpdateAllRounded, UpdateAll, UpdateRounded_id, ih]

/-- Evaluating `roundNearestEven` once the floor is known. -/
theorem roundNearestEven_of_floor (y : ℚ) (n : ℤ) (h1 : (n : ℚ) ≤ y) (h2 : y < n + 1) :
    roundNearestEven y =
      (if y - n < 1 / 2 then n
        else if 1 / 2 < y - n then n + 1
        else if n % 2 = 0 then n else n + 1) := by
  have hfl : ⌊y⌋ = n := Int.floor_eq_iff.mpr ⟨h1, h2⟩
  simp only [roundNearestEven, hfl]

/-- Evaluating `roundDouble` once the binary exponent is known (normal
range). -/
theorem roundDouble_of_exponent (x : ℚ) (e : ℤ) (h1 : (2 : ℚ) ^ e ≤ |x|)
    (h2 : |x| < (2 : ℚ) ^ (e + 1)) (he : -1022 ≤ e) :
    roundDouble x = roundNearestEven (x / 2 ^ (e - 52)) * 2 ^ (e - 52) := by
  have hpos : 0 < |x| := lt_of_lt_of_le (by positivity) h1
  have hlog : Int.log 2 |x| = e := by
    apply le_antisymm
    · have := (Int.lt_zpow_iff_log_lt (by norm_num : 1 < 2) hpos).mp
        (by exact_mod_cast h2 : |x| < ((2 : ℕ) : ℚ) ^ (e + 1))
      omega
    · exact (Int.zpow_le_iff_le_log (by norm_num : 1 < 2) hpos).mp
        (by exact_mod_cast h1 : ((2 : ℕ) : ℚ) ^ e ≤ |x|)
  have hq : quantumExp x = e - 52 := by
    simp only [quantumExp, hlog]
    exact max_eq_left (by omega)
  simp only [roundDouble, hq]

theorem roundDouble_of_pos (x : ℚ) (e n : ℤ) (h1 : (2 : ℚ) ^ e ≤ x)
    (h2 : x < (2 : ℚ) ^ (e + 1)) (he : -1022 ≤ e)
    (h3 : (n : ℚ) ≤ x / 2 ^ (e - 52)) (h4 : x / 2 ^ (e - 52) < n + 1) :
    roundDouble x =
      ((if x / 2 ^ (e - 52) - n < 1 / 2 then n
        else if 1 / 2 < x / 2 ^ (e - 52) - n then n + 1
        else if n % 2 = 0 then n else n + 1 : ℤ) : ℚ) * 2 ^ (e - 52) := by
  have hx : 0 < x := lt_of_lt_of_le (by positivity) h1
  rw [roundDouble_of_exponent x e (by rwa [abs_of_pos hx]) (by rwa [abs_of_pos hx]) he,
    roundNearestEven_of_floor _ n h3 h4]

theorem roundDouble_of_neg (x : ℚ) (e n : ℤ) (h1 : (2 : ℚ) ^ e ≤ -x)
    (h2 : -x < (2 : ℚ) ^ (e + 1)) (he : -1022 ≤ e)
    (h3 : (n : ℚ) ≤ x / 2 ^ (e - 52)) (h4 : x / 2 ^ (e - 52) < n + 1) :
    roundDouble x =
      ((if x / 2 ^ (e - 52) - n < 1 / 2 then n
        else if 1 / 2 < x / 2 ^ (e - 52) - n then n + 1
        else if n % 2 = 0 then n else n + 1 : ℤ) : ℚ) * 2 ^ (e - 52) := by
  have hx : x < 0 := by
    have : (0 : ℚ) < 2 ^ e := by positivity
    linarith
  rw [roundDouble_of_exponent x e (by rwa [abs_of_neg hx]) (by rwa [abs_of_neg hx]) he,
    roundNearestEven_of_floor _ n h3 h4]

/-- The elapsed value for which the exact `Update` stores what the rounded one
stores. -/
theorem UpdateRounded_eq_Update (rnd : ℚ → ℚ) (w : World) (seconds : ℚ) :
    UpdateRounded rnd w seconds =
      Update w (if w.timer.m_CountingDown
        then w.timer.m_CurrentTime - rnd (w.timer.m_CurrentTime - seconds)
        else rnd (w.timer.m_CurrentTime + seconds) - w.timer.m_CurrentTime) := by
  obtain ⟨⟨T, c, cd, l, p, i, fn⟩, fired⟩ := w
  cases cd <;> simp [UpdateRounded, Update]

theorem UpdateRounded_of_exact (rnd : ℚ → ℚ) (w : World) (seconds : ℚ)
    (h : rnd (advance w.timer seconds) = advance w.timer seconds) :
    UpdateRounded rnd w seconds = Update w seconds := by
  obtain ⟨⟨T, c, cd, l, p, i, fn⟩, fired⟩ := w
  cases cd <;> simp [advance] at h <;> simp [UpdateRounded, Update, h]

theorem UpdateAllRounded_of_pastBoundary (rnd : ℚ → ℚ) (w : World) (ds : List ℚ)
    (hp : w.timer.m_Paused = false) (h : pastBoundary w.timer) :
    UpdateAllRounded rnd w ds = (List.replicate ds.length (.ok true), w) := by
  induction ds with
  | nil => rfl
  | cons d ds ih =>
    simp [UpdateAllRounded, UpdateRounded_eq_Update, Update_of_pastBoundary w _ hp h, ih,
      List.replicate_succ]

/-- A non-looping count-down timer with a callback, running from
`m_CurrentTime ≥ 0` through any sequence of `Update` calls under any rounding:
if the stored current time ends below `0`, the callback has run exactly once
and the last call returned `true`; if it ends at or above `0`, the callback has
not run, every call returned `false`, and the stored value is the initial one
with the increments subtracted (and rounded) one by one. -/
theorem UpdateAllRounded_countDown_nonLooping (rnd : ℚ → ℚ) (f : Nat) (ds : List ℚ) :
    ∀ w : World, w.timer.m_Paused = false → w.timer.m_CountingDown = true →
      w.timer.m_Looping = false → w.timer.m_ExcecutingFunction = some f →
      0 ≤ w.timer.m_CurrentTime →
      ((UpdateAllRounded rnd w ds).2.timer.m_CurrentTime < 0 →
        (UpdateAllRounded rnd w ds).2.fired = w.fired ++ [f] ∧
        (UpdateAllRounded rnd w ds).1.getLast? = some (.ok true)) ∧
      (0 ≤ (UpdateAllRounded rnd w ds).2.timer.m_CurrentTime →
        (UpdateAllRounded rnd w ds).2.fired = w.fired ∧
        (UpdateAllRounded rnd w ds).1 = List.replicate ds.length (.ok false) ∧
        (UpdateAllRounded rnd w ds).2.timer.m_CurrentTime
          = ds.foldl (fun c d => rnd (c - d)) w.timer.m_CurrentTime) := by
  induction ds with
  | nil =>
    intro w _ _ _ _ hc
    refine ⟨fun h => ?_, fun _ => ?_⟩
    · exact absurd h (not_lt.mpr hc)
    · simp [UpdateAllRounded]
  | cons d ds ih =>
    intro w hp hcd hl hf hc
    have hU := Update_countDown_aux w
      (w.timer.m_CurrentTime - rnd (w.timer.m_CurrentTime - d)) f hp hcd hc hf
    have hR := UpdateRounded_eq_Update rnd w d
    rw [if_pos hcd] at hR
    simp only [sub_sub_cancel] at hU
    by_cases hlt : rnd (w.timer.m_CurrentTime - d) < 0
    · have h1 := hU.2.1 hlt hl
      have hall := UpdateAllRounded_of_pastBoundary rnd
        { timer := { w.timer with m_CurrentTime := rnd (w.timer.m_CurrentTime - d) },
          fired := w.fired ++ [f] } ds hp (Or.inl ⟨hcd, hlt⟩)
      have hrun : UpdateAllRounded rnd w (d :: ds) =
          (.ok true :: List.replicate ds.length (.ok true),
            { timer := { w.timer with m_CurrentTime := rnd (w.timer.m_CurrentTime - d) },
              fired := w.fired ++ [f] }) := by
        simp only [UpdateAllRounded, hR, h1, hall]
      rw [hrun]
      exact ⟨fun _ => ⟨rfl, getLast?_cons_replicate _ _⟩,
        fun h => absurd hlt (not_lt.mpr h)⟩
    · have hge : 0 ≤ rnd (w.timer.m_CurrentTime - d) := not_lt.mp hlt
      have h1 := hU.1 hge
      have ih' := ih
        { timer := { w.timer with m_CurrentTime := rnd (w.timer.m_CurrentTime - d) },
          fired := w.fired } hp hcd hl hf hge
      simp only [UpdateAllRounded, hR, h1]
      refine ⟨fun h => ?_, fun h => ?_⟩
      · obtain ⟨h2, h3⟩ := ih'.1 h
        refine ⟨h2, ?_⟩
        cases hr : (UpdateAllRounded rnd
          { timer := { w.timer with m_CurrentTime := rnd (w.timer.m_CurrentTime - d) },
            fired := w.fired } ds).1 with
        | nil => rw [hr] at h3; simp at h3
        | cons a as => rw [hr] at h3; rw [List.getLast?_cons_cons]; exact h3
      · obtain ⟨h2, h3, h4⟩ := ih'.2 h
        exact ⟨h2, by simp [h3, List.replicate_succ], by simpa using h4⟩

/-- When every subtraction along the run is exact, the rounded run of a
non-looping count-down timer is the exact one. -/
theorem UpdateAllRounded_of_exact (rnd : ℚ → ℚ) (f : Nat) (ds : List ℚ) :
    ∀ w : World, w.timer.m_Paused = false → w.timer.m_CountingDown = true →
      w.timer.m_Looping = false → w.timer.m_ExcecutingFunction = some f →
      0 ≤ w.timer.m_CurrentTime →
      (∀ k, k < ds.length →
        rnd (w.timer.m_CurrentTime - (ds.take (k + 1)).sum)
          = w.timer.m_CurrentTime - (ds.take (k + 1)).sum) →
      UpdateAllRounded rnd w ds = UpdateAll w ds := by
  induction ds with
  | nil => intro w _ _ _ _ _ _; rfl
  | cons d ds ih =>
    intro w hp hcd hl hf hc hex
    have h0 : rnd (w.timer.m_CurrentTime - d) = w.timer.m_CurrentTime - d := by
      simpa using hex 0 (Nat.succ_pos _)
    have hR : UpdateRounded rnd w d = Update w d :=
      UpdateRounded_of_exact rnd w d (by simpa [advance, hcd] using h0)
    have hU := Update_countDown_aux w d f hp hcd hc hf
    by_cases hlt : w.timer.m_CurrentTime - d < 0
    · have h1 := hU.2.1 hlt hl
      have e1 := UpdateAllRounded_of_pastBoundary rnd
        { timer := { w.timer with m_CurrentTime := w.timer.m_CurrentTime - d },
          fired := w.fired ++ [f] } ds hp (Or.inl ⟨hcd, hlt⟩)
      have e2 := UpdateAll_of_pastBoundary
        { timer := { w.timer with m_CurrentTime := w.timer.m_CurrentTime - d },
          fired := w.fired ++ [f] } ds hp (Or.inl ⟨hcd, hlt⟩)
      simp only [UpdateAllRounded, UpdateAll, hR, h1, e1, e2]
    · have hge : 0 ≤ w.timer.m_CurrentTime - d := not_lt.mp hlt
      have h1 := hU.1 hge
      have hex1 : ∀ k, k < ds.length →
          rnd (w.timer.m_CurrentTime - d - (ds.take (k + 1)).sum)
            = w.timer.m_CurrentTime - d - (ds.take (k + 1)).sum := by
        intro k hk
        have := hex (k + 1) (Nat.succ_lt_succ hk)
        simpa [List.take_succ_cons, sub_add_eq_sub_sub] using this
      have e1 := ih
        { timer := { w.timer with m_CurrentTime := w.timer.m_CurrentTime - d },
          fired := w.fired } hp hcd hl hf hge hex1
      simp only [UpdateAllRounded, UpdateAll, hR, h1, e1]

/-- One rounded `Update` on an unpaused count-down timer with `m_CurrentTime ≥ 0`
and a callback, given the value `v` that the subtraction stores. -/
theorem UpdateRounded_countDown_val (rnd : ℚ → ℚ) (w : World) (d v : ℚ) (f : Nat)
    (hp : w.timer.m_Paused = false) (hcd : w.timer.m_CountingDown = true)
    (hc : 0 ≤ w.timer.m_CurrentTime) (hf : w.timer.m_ExcecutingFunction = some f)
    (hv : rnd (w.timer.m_CurrentTime - d) = v) :
    (0 ≤ v →
      UpdateRounded rnd w d = (.ok false,
        { timer := { w.timer with m_CurrentTime := v }, fired := w.fired })) ∧
    (v < 0 → w.timer.m_Looping = false →
      UpdateRounded rnd w d = (.ok true,
        { timer := { w.timer with m_CurrentTime := v }, fired := w.fired ++ [f] })) ∧
    (v < 0 → w.timer.m_Looping = true →
      UpdateRounded rnd w d = (.ok false,
        { timer := { w.timer with m_CurrentTime := w.timer.m_TargetTime },
          fired := w.fired ++ [f] })) := by
  subst hv
  have hU := Update_countDown_aux w
    (w.timer.m_CurrentTime - rnd (w.timer.m_CurrentTime - d)) f hp hcd hc hf
  have hR := UpdateRounded_eq_Update rnd w d
  rw [if_pos hcd] at hR
  simp only [sub_sub_cancel] at hU
  rw [hR]
  exact hU

/-- C4 (amended): a non-looping, unpaused count-down timer freshly constructed
with target `T > 0` and a callback, driven through any finite sequence of
`Update` calls, whatever rounding `rnd` the subtraction `m_CurrentTime -=
seconds` applies.  If the stored current time has dropped below `0`, the
callback has run exactly once and the final `Update` returned `true`.  If it is
still at or above `0` (in particular when it lands on exactly `0`), the
callback has not run, every `Update` returned `false`, and the stored value is
`T` with the increments subtracted and rounded one by one.  When the increments
are positive and every subtraction is exact, this reads: increments summing to
more than `T` complete exactly once, increments summing to exactly `T` do not
complete and leave `m_CurrentTime = 0`. -/
theorem countDown_completes_once (rnd : ℚ → ℚ) (T : ℚ) (f : Nat) (ds : List ℚ)
    (hT : 0 < T) :
    ((UpdateAllRounded rnd (World.init (Timer.mk5 T true false (some f) false))
        ds).2.timer.m_CurrentTime < 0 →
      (UpdateAllRounded rnd (World.init (Timer.mk5 T true false (some f) false))
        ds).2.fired = [f] ∧
      (UpdateAllRounded rnd (World.init (Timer.mk5 T true false (some f) false))
        ds).1.getLast? = some (.ok true)) ∧
    (0 ≤ (UpdateAllRounded rnd (World.init (Timer.mk5 T true false (some f) false))
        ds).2.timer.m_CurrentTime →
      (UpdateAllRounded rnd (World.init (Timer.mk5 T true false (some f) false))
        ds).2.fired = [] ∧
      (UpdateAllRounded rnd (World.init (Timer.mk5 T true false (some f) false))
        ds).1 = List.replicate ds.length (.ok false) ∧
      (UpdateAllRounded rnd (World.init (Timer.mk5 T true false (some f) false))
        ds).2.timer.m_CurrentTime = ds.foldl (fun c d => rnd (c - d)) T) ∧
    ((∀ d ∈ ds, 0 < d) →
      (∀ k, k < ds.length →
        rnd (T - (ds.take (k + 1)).sum) = T - (ds.take (k + 1)).sum) →
      (T < ds.sum →
        (UpdateAllRounded rnd (World.init (Timer.mk5 T true false (some f) false))
          ds).2.fired = [f] ∧
        (UpdateAllRounded rnd (World.init (Timer.mk5 T true false (some f) false))
          ds).1.getLast? = some (.ok true)) ∧
      (ds.sum = T →
        UpdateAllRounded rnd (World.init (Timer.mk5 T true false (some f) false)) ds
          = (List.replicate ds.length (.ok false),
              ⟨{ Timer.mk5 T true false (some f) false with m_CurrentTime := 0 }, []⟩))) := by
  have hc : 0 ≤ (World.init (Timer.mk5 T true false (some f) false)).timer.m_CurrentTime := by
    simpa [World.init, Timer.mk5] using hT.le
  have h := UpdateAllRounded_countDown_nonLooping rnd f ds
    (World.init (Timer.mk5 T true false (some f) false)) rfl rfl rfl rfl hc
  refine ⟨fun hlt => ?_, fun hge => ?_, fun hpos hex => ?_⟩
  · obtain ⟨h1, h2⟩ := h.1 hlt
    exact ⟨by simpa [World.init] using h1, h2⟩
  · obtain ⟨h1, h2, h3⟩ := h.2 hge
    exact ⟨by simpa [World.init] using h1, h2, by simpa [World.init, Timer.mk5] using h3⟩
  · have hrun := UpdateAllRounded_of_exact rnd f ds
      (World.init (Timer.mk5 T true false (some f) false)) rfl rfl rfl rfl hc
      (by simpa [World.init, Timer.mk5] using hex)
    have hx := UpdateAll_countDown_nonLooping f ds
      (World.init (Timer.mk5 T true false (some f) false)) rfl rfl rfl rfl hc
      (fun d hd => (hpos d hd).le)
    rw [hrun]
    refine ⟨fun hlt => ?_, fun heq => ?_⟩
    · obtain ⟨h1, h2, _⟩ := hx.2 (by simpa [World.init, Timer.mk5] using hlt)
      exact ⟨by simpa [World.init] using h1, h2⟩
    · rw [hx.1 (by simp [World.init, Timer.mk5, heq])]
      simp [World.init, Timer.mk5, heq]

theorem roundDouble_zero : roundDouble 0 = 0 := by
  simp [roundDouble, roundNearestEven]

/-- Scenario A on binary64 values: `Timer(5.0, countingDown, non-looping, cb)`
with `Update(3.0)`, `Update(3.0)` stores `2` and then `-1`. -/
theorem UpdateAllRounded_scenarioA :
    UpdateAllRounded roundDouble (World.init (Timer.mk5 5 true false (some 7) false)) [3, 3]
      = ([.ok false, .ok true], ⟨⟨5, -1, true, false, false, false, some 7⟩, [7]⟩) := by
  have e : World.init (Timer.mk5 5 true false (some 7) false)
      = ⟨⟨5, 5, true, false, false, false, some 7⟩, []⟩ := by
    norm_num [World.init, Timer.mk5]
  have r1 : roundDouble (5 - 3) = 2 := by
    rw [roundDouble_of_pos _ 1 4503599627370496 (by norm_num) (by norm_num) (by norm_num)
      (by norm_num) (by norm_num)]
    norm_num
  have r2 : roundDouble (2 - 3) = -1 := by
    rw [roundDouble_of_neg _ 0 (-4503599627370496) (by norm_num) (by norm_num) (by norm_num)
      (by norm_num) (by norm_num)]
    norm_num
  have s1 := (UpdateRounded_countDown_val roundDouble
    ⟨⟨5, 5, true, false, false, false, some 7⟩, []⟩ 3 2 7 rfl rfl (by norm_num) rfl r1).1
    (by norm_num)
  have s2 := (UpdateRounded_countDown_val roundDouble
    ⟨⟨5, 2, true, false, false, false, some 7⟩, []⟩ 3 (-1) 7 rfl rfl (by norm_num) rfl r2).2.1
    (by norm_num) rfl
  rw [e]
  simp only [UpdateAllRounded, s1, s2, List.nil_append]

/-- The counterexample input of C4 on binary64 values: `Timer(5.0, ..)` with
`Update(2.0)`, `Update(3.0)` stores `3` and then exactly `0`. -/
theorem UpdateAllRounded_exact_landing :
    UpdateAllRounded roundDouble (World.init (Timer.mk5 5 true false (some 7) false)) [2, 3]
      = ([.ok false, .ok false], ⟨⟨5, 0, true, false, false, false, some 7⟩, []⟩) := by
  have e : World.init (Timer.mk5 5 true false (some 7) false)
      = ⟨⟨5, 5, true, false, false, false, some 7⟩, []⟩ := by
    norm_num [World.init, Timer.mk5]
  have r1 : roundDouble (5 - 2) = 3 := by
    rw [roundDouble_of_pos _ 1 6755399441055744 (by norm_num) (by norm_num) (by norm_num)
      (by norm_num) (by norm_num)]
    norm_num
  have r2 : roundDouble (3 - 3) = 0 := by
    rw [sub_self, roundDouble_zero]
  have s1 := (UpdateRounded_countDown_val roundDouble
    ⟨⟨5, 5, true, false, false, false, some 7⟩, []⟩ 2 3 7 rfl rfl (by norm_num) rfl r1).1
    (by norm_num)
  have s2 := (UpdateRounded_countDown_val roundDouble
    ⟨⟨5, 3, true, false, false, false, some 7⟩, []⟩ 3 0 7 rfl rfl (by norm_num) rfl r2).1
    (by norm_num)
  rw [e]
  simp only [UpdateAllRounded, s1, s2]

theorem roundDouble_small :
    roundDouble 1 = 1 ∧ roundDouble 2 = 2 ∧ roundDouble 3 = 3 := by
  refine ⟨?_, ?_, ?_⟩
  · rw [roundDouble_of_pos _ 0 4503599627370496 (by norm_num) (by norm_num) (by norm_num)
      (by norm_num) (by norm_num)]
    norm_num
  · rw [roundDouble_of_pos _ 1 4503599627370496 (by norm_num) (by norm_num) (by norm_num)
      (by norm_num) (by norm_num)]
    norm_num
  · rw [roundDouble_of_pos _ 1 6755399441055744 (by norm_num) (by norm_num) (by norm_num)
      (by norm_num) (by norm_num)]
    norm_num

/-- On binary64 values: `Timer(5.0, countingDown, non-looping, cb, unpaused)`
with increments `3, 3` ends below `0`, has run the callback once and returned
`true` last; with increments `2, 3` it ends at exactly `0`, has not run the
callback and has returned `false` twice.  Both subtractions of the second run
are exact and the increments sum to the target. -/
theorem countDown_completes_once_witness :
    ((UpdateAllRounded roundDouble (World.init (Timer.mk5 5 true false (some 7) false)) [3, 3]).2.fired = [7] ∧
      (UpdateAllRounded roundDouble (World.init (Timer.mk5 5 true false (some 7) false)) [3, 3]).1.getLast? = some (.ok true)) ∧
    ((UpdateAllRounded roundDouble (World.init (Timer.mk5 5 true false (some 7) false)) [2, 3]).2.fired = [] ∧
      (UpdateAllRounded roundDouble (World.init (Timer.mk5 5 true false (some 7) false)) [2, 3]).1 = List.replicate 2 (.ok false) ∧
      (UpdateAllRounded roundDouble (World.init (Timer.mk5 5 true false (some 7) false)) [2, 3]).2.timer.m_CurrentTime
        = ([2, 3] : List ℚ).foldl (fun c d => roundDouble (c - d)) 5) ∧
    UpdateAllRounded roundDouble (World.init (Timer.mk5 5 true false (some 7) false)) [2, 3]
      = (List.replicate 2 (.ok false),
          ⟨{ Timer.mk5 5 true false (some 7) false with m_CurrentTime := 0 }, []⟩) := by
  refine ⟨?_, ?_, ?_⟩
  · exact (countDown_completes_once roundDouble 5 7 [3, 3] (by norm_num)).1
      (by rw [UpdateAllRounded_scenarioA]; norm_num)
  · exact (countDown_completes_once roundDouble 5 7 [2, 3] (by norm_num)).2.1
      (by rw [UpdateAllRounded_exact_landing])
  · refine ((countDown_completes_once roundDouble 5 7 [2, 3] (by norm_num)).2.2
      (by intro d hd; simp at hd; rcases hd with rfl | rfl <;> norm_num) ?_).2 (by norm_num)
    intro k hk
    obtain ⟨_, _, h3⟩ := roundDouble_small
    have hk2 : k < 2 := hk
    interval_cases k
    · norm_num [h3]
    · norm_num [roundDouble_zero]

/-- The callback log enters `UpdateRounded` only as the list that is extended. -/
theorem UpdateRounded_fired (rnd : ℚ → ℚ) (t : Timer) (F : List Nat) (s : ℚ) :
    UpdateRounded rnd ⟨t, F⟩ s =
      ((UpdateRounded rnd ⟨t, []⟩ s).1, ⟨stepTimer rnd s t, F ++ stepFired rnd s t⟩) := by
  obtain ⟨T, c, cd, l, p, i, fn⟩ := t
  cases p
  · cases cd
    · by_cases h1 : c ≤ T <;> by_cases h2 : T < rnd (c + s) <;> cases l <;> cases fn <;>
        simp [stepTimer, stepFired, UpdateRounded, complete, h1, h2]
    · by_cases h1 : 0 ≤ c <;> by_cases h2 : rnd (c - s) < 0 <;> cases l <;> cases fn <;>
        simp [stepTimer, stepFired, UpdateRounded, complete, h1, h2]
  · simp [stepTimer, stepFired, UpdateRounded]

/-- One rounded `Update` on an unpaused looping timer with a callback does one
of three things: it crosses the boundary, runs the callback and re-arms the
timer at its start value; or it only stores a new current time; or the timer
is already past its boundary and nothing happens. -/
theorem UpdateRounded_looping_cases (rnd : ℚ → ℚ) (t : Timer) (s : ℚ) (f : Nat)
    (hp : t.m_Paused = false) (hl : t.m_Looping = true)
    (hf : t.m_ExcecutingFunction = some f) :
    ((UpdateRounded rnd ⟨t, []⟩ s).1 = .ok false ∧ stepFired rnd s t = [f] ∧
      stepTimer rnd s t = { t with m_CurrentTime := resetValue t }) ∨
    ((UpdateRounded rnd ⟨t, []⟩ s).1 = .ok false ∧ stepFired rnd s t = [] ∧
      ∃ v, stepTimer rnd s t = { t with m_CurrentTime := v }) ∨
    ((UpdateRounded rnd ⟨t, []⟩ s).1 = .ok true ∧ stepFired rnd s t = [] ∧
      stepTimer rnd s t = t) := by
  obtain ⟨T, c, cd, l, p, i, fn⟩ := t
  simp only at hp hl hf
  subst hp hl hf
  cases cd
  · by_cases h1 : c ≤ T <;> by_cases h2 : T < rnd (c + s) <;>
      simp [stepTimer, stepFired, UpdateRounded, complete, resetValue, Timer.Reset,
        Timer.SetPaused, h1, h2]
  · by_cases h1 : 0 ≤ c <;> by_cases h2 : rnd (c - s) < 0 <;>
      simp [stepTimer, stepFired, UpdateRounded, complete, resetValue, Timer.Reset,
        Timer.SetPaused, h1, h2]

/-- Along repeated rounded `Update` calls on a looping timer only the current
time changes. -/
theorem iterate_stepTimer_frame (rnd : ℚ → ℚ) (dt : ℚ) (f : Nat) (t0 : Timer)
    (hp : t0.m_Paused = false) (hl : t0.m_Looping = true)
    (hf : t0.m_ExcecutingFunction = some f) :
    ∀ k : Nat, ∃ v, (stepTimer rnd dt)^[k] t0 = { t0 with m_CurrentTime := v } := by
  intro k
  induction k with
  | zero => exact ⟨t0.m_CurrentTime, rfl⟩
  | succ k ih =>
    obtain ⟨v, hv⟩ := ih
    rw [Function.iterate_succ_apply', hv]
    rcases UpdateRounded_looping_cases rnd { t0 with m_CurrentTime := v } dt f hp hl hf with
      ⟨_, _, h⟩ | ⟨_, _, x, h⟩ | ⟨_, _, h⟩
    · exact ⟨_, h⟩
    · exact ⟨x, h⟩
    · exact ⟨v, h⟩

/-- Periodicity on the timer alone: if, starting from the start value, the
calls `1 .. q` run no callback and call `q + 1` runs it, then every call
returns `false` and call `m + 1` runs the callback exactly when `q + 1` divides
`m + 1`. -/
theorem looping_period_core (rnd : ℚ → ℚ) (dt : ℚ) (f : Nat) (t0 : Timer) (q : Nat)
    (hp : t0.m_Paused = false) (hl : t0.m_Looping = true)
    (hf : t0.m_ExcecutingFunction = some f)
    (hc : t0.m_CurrentTime = resetValue t0)
    (hquiet : ∀ j, j < q → stepFired rnd dt ((stepTimer rnd dt)^[j] t0) = [])
    (hfire : stepFired rnd dt ((stepTimer rnd dt)^[q] t0) = [f]) :
    ∀ m : Nat,
      (UpdateRounded rnd ⟨(stepTimer rnd dt)^[m] t0, []⟩ dt).1 = .ok false ∧
      stepFired rnd dt ((stepTimer rnd dt)^[m] t0)
        = (if (q + 1) ∣ (m + 1) then [f] else []) := by
  have hframe := iterate_stepTimer_frame rnd dt f t0 hp hl hf
  have hcases : ∀ k : Nat,
      ((UpdateRounded rnd ⟨(stepTimer rnd dt)^[k] t0, []⟩ dt).1 = .ok false ∧
        stepFired rnd dt ((stepTimer rnd dt)^[k] t0) = [f] ∧
        stepTimer rnd dt ((stepTimer rnd dt)^[k] t0) = t0) ∨
      ((UpdateRounded rnd ⟨(stepTimer rnd dt)^[k] t0, []⟩ dt).1 = .ok false ∧
        stepFired rnd dt ((stepTimer rnd dt)^[k] t0) = []) ∨
      (stepFired rnd dt ((stepTimer rnd dt)^[k] t0) = [] ∧
        stepTimer rnd dt ((stepTimer rnd dt)^[k] t0) = (stepTimer rnd dt)^[k] t0) := by
    intro k
    obtain ⟨v, hv⟩ := hframe k
    rw [hv]
    rcases UpdateRounded_looping_cases rnd { t0 with m_CurrentTime := v } dt f hp hl hf with
      ⟨h1, h2, h3⟩ | ⟨h1, h2, _⟩ | ⟨_, h2, h3⟩
    · refine Or.inl ⟨h1, h2, ?_⟩
      rw [h3]
      obtain ⟨T, c, cd, l, p, i, fn⟩ := t0
      simp only [resetValue] at hc ⊢
      simp only [hc]
    · exact Or.inr (Or.inl ⟨h1, h2⟩)
    · exact Or.inr (Or.inr ⟨h2, h3⟩)
  have hA : (stepTimer rnd dt)^[q + 1] t0 = t0 := by
    rw [Function.iterate_succ_apply']
    rcases hcases q with ⟨_, _, h⟩ | ⟨_, h⟩ | ⟨h, _⟩
    · exact h
    · rw [hfire] at h; simp at h
    · rw [hfire] at h; simp at h
  have hB : ∀ m : Nat,
      (stepTimer rnd dt)^[m] t0 = (stepTimer rnd dt)^[m % (q + 1)] t0 := by
    intro m
    conv_lhs => rw [← Nat.mod_add_div m (q + 1)]
    rw [Function.iterate_add_apply, Function.iterate_mul, Function.iterate_fixed hA]
  have hC : ∀ r : Nat, r ≤ q →
      (UpdateRounded rnd ⟨(stepTimer rnd dt)^[r] t0, []⟩ dt).1 = .ok false ∧
      stepFired rnd dt ((stepTimer rnd dt)^[r] t0) = (if r = q then [f] else []) := by
    intro r hr
    rcases Nat.lt_or_eq_of_le hr with hlt | heq
    · have hq := hquiet r hlt
      rcases hcases r with ⟨_, h, _⟩ | ⟨h1, _⟩ | ⟨_, hfix⟩
      · rw [hq] at h; simp at h
      · exact ⟨h1, by rw [hq, if_neg hlt.ne]⟩
      · exfalso
        have hsame : (stepTimer rnd dt)^[q] t0 = (stepTimer rnd dt)^[r] t0 := by
          have e : q = (q - r) + r := by omega
          rw [e, Function.iterate_add_apply, Function.iterate_fixed hfix]
        rw [hsame, hq] at hfire
        simp at hfire
    · subst heq
      rcases hcases r with ⟨h1, _, _⟩ | ⟨_, h⟩ | ⟨h, _⟩
      · exact ⟨h1, by rw [hfire, if_pos rfl]⟩
      · rw [hfire] at h; simp at h
      · rw [hfire] at h; simp at h
  intro m
  have hr : m % (q + 1) ≤ q := Nat.lt_succ_iff.mp (Nat.mod_lt _ (Nat.succ_pos _))
  have hd := dvd_succ_iff_mod m (q + 1) (Nat.succ_pos _)
  rw [hB m]
  obtain ⟨h1, h2⟩ := hC _ hr
  refine ⟨h1, ?_⟩
  rw [h2]
  by_cases h : m % (q + 1) = q
  · rw [if_pos h, if_pos (hd.mpr (by omega))]
  · rw [if_neg h, if_neg (fun hdv => h (by have := hd.mp hdv; omega))]

theorem stepWorld_eq (rnd : ℚ → ℚ) (dt : ℚ) (w : World) :
    stepWorld rnd dt w
      = ⟨stepTimer rnd dt w.timer, w.fired ++ stepFired rnd dt w.timer⟩ := by
  obtain ⟨t, F⟩ := w
  simp only [stepWorld]
  rw [UpdateRounded_fired]

theorem iterate_stepWorld_timer (rnd : ℚ → ℚ) (dt : ℚ) (w : World) :
    ∀ m : Nat, ((stepWorld rnd dt)^[m] w).timer = (stepTimer rnd dt)^[m] w.timer := by
  intro m
  induction m with
  | zero => rfl
  | succ m ih =>
    rw [Function.iterate_succ_apply', Function.iterate_succ_apply', stepWorld_eq, ih]

/-- On an unpaused looping timer with a callback no `Update` throws, so the
state after `m` calls with elapsed `dt` is the `m`-fold iterate of one call. -/
theorem UpdateAllRounded_replicate (rnd : ℚ → ℚ) (dt : ℚ) (f : Nat) (m : Nat) :
    ∀ w : World, w.timer.m_Paused = false → w.timer.m_Looping = true →
      w.timer.m_ExcecutingFunction = some f →
      (UpdateAllRounded rnd w (List.replicate m dt)).2 = (stepWorld rnd dt)^[m] w := by
  induction m with
  | zero => intro w _ _ _; rfl
  | succ m ih =>
    intro w hp hl hf
    obtain ⟨t, F⟩ := w
    have hfr := UpdateRounded_fired rnd t F dt
    have hsw : stepWorld rnd dt ⟨t, F⟩ = ⟨stepTimer rnd dt t, F ++ stepFired rnd dt t⟩ :=
      stepWorld_eq rnd dt ⟨t, F⟩
    obtain ⟨v, hv⟩ := iterate_stepTimer_frame rnd dt f t hp hl hf 1
    have hv1 : stepTimer rnd dt t = { t with m_CurrentTime := v } := hv
    have hnext := ih ⟨stepTimer rnd dt t, F ++ stepFired rnd dt t⟩
      (by rw [hv1]; exact hp) (by rw [hv1]; exact hl) (by rw [hv1]; exact hf)
    rw [Function.iterate_succ_apply, hsw, ← hnext]
    rcases UpdateRounded_looping_cases rnd t dt f hp hl hf with
      ⟨h1, _, _⟩ | ⟨h1, _, _⟩ | ⟨h1, _, _⟩ <;>
      simp only [List.replicate_succ, UpdateAllRounded, hfr, h1]

theorem UpdateRounded_afterSteps (rnd : ℚ → ℚ) (t : Timer) (F : List Nat) (dt : ℚ)
    (f r : Nat) (hp : t.m_Paused = false) (hl : t.m_Looping = true)
    (hf : t.m_ExcecutingFunction = some f)
    (hT : 0 < t.m_TargetTime) (hdt : 0 < dt) (hr : r ≤ ⌊t.m_TargetTime / dt⌋₊)
    (hex : rnd (advance (afterSteps t dt r) dt) = advance (afterSteps t dt r) dt) :
    UpdateRounded rnd ⟨afterSteps t dt r, F⟩ dt =
      (.ok false,
        if r + 1 ≤ ⌊t.m_TargetTime / dt⌋₊ then ⟨afterSteps t dt (r + 1), F⟩
        else ⟨afterSteps t dt 0, F ++ [f]⟩) := by
  rw [UpdateRounded_of_exact rnd ⟨afterSteps t dt r, F⟩ dt hex]
  exact Update_afterSteps t F dt f r hp hl hf hT hdt hr

/-- C19 (amended): a looping, unpaused timer (either direction) with a callback
`f` whose current time is at its start value (freshly constructed or reset),
driven by `Update` calls with one constant elapsed value `dt`, whatever
rounding `rnd` the arithmetic applies.  If the calls `1 .. q` run no callback
and call `q + 1` runs it, then every `Update` returns `false` and call `m + 1`
runs the callback exactly when `q + 1` divides `m + 1`: the timer is periodic
with the period of its first firing.  When `T > 0`, `dt > 0` and the
accumulated values `dt, 2 dt, ..` (counting down: `T - dt, T - 2 dt, ..`) of
one period are computed without rounding error, that period is
`⌊T / dt⌋ + 1`. -/
theorem looping_fires_periodically (rnd : ℚ → ℚ) (w : World) (f : Nat) (dt : ℚ)
    (hp : w.timer.m_Paused = false) (hl : w.timer.m_Looping = true)
    (hf : w.timer.m_ExcecutingFunction = some f)
    (hc : w.timer.m_CurrentTime = resetValue w.timer) :
    (∀ q : Nat,
      (∀ j, j < q →
        (UpdateRounded rnd (UpdateAllRounded rnd w (List.replicate j dt)).2 dt).2.fired
          = (UpdateAllRounded rnd w (List.replicate j dt)).2.fired) →
      (UpdateRounded rnd (UpdateAllRounded rnd w (List.replicate q dt)).2 dt).2.fired
          = (UpdateAllRounded rnd w (List.replicate q dt)).2.fired ++ [f] →
      ∀ m : Nat,
        (UpdateRounded rnd (UpdateAllRounded rnd w (List.replicate m dt)).2 dt).1
          = .ok false ∧
        (UpdateRounded rnd (UpdateAllRounded rnd w (List.replicate m dt)).2 dt).2.fired
          = (UpdateAllRounded rnd w (List.replicate m dt)).2.fired ++
            (if (q + 1) ∣ (m + 1) then [f] else [])) ∧
    (0 < w.timer.m_TargetTime → 0 < dt →
      (∀ r : Nat, r ≤ ⌊w.timer.m_TargetTime / dt⌋₊ →
        rnd (advance (afterSteps w.timer dt r) dt) = advance (afterSteps w.timer dt r) dt) →
      ∀ m : Nat,
        (UpdateRounded rnd (UpdateAllRounded rnd w (List.replicate m dt)).2 dt).1
          = .ok false ∧
        (UpdateRounded rnd (UpdateAllRounded rnd w (List.replicate m dt)).2 dt).2.fired
          = (UpdateAllRounded rnd w (List.replicate m dt)).2.fired ++
            (if (⌊w.timer.m_TargetTime / dt⌋₊ + 1) ∣ (m + 1) then [f] else [])) := by
  have hst : ∀ m : Nat,
      (UpdateAllRounded rnd w (List.replicate m dt)).2 = (stepWorld rnd dt)^[m] w :=
    fun m => UpdateAllRounded_replicate rnd dt f m w hp hl hf
  have hkey : ∀ m : Nat,
      UpdateRounded rnd ((stepWorld rnd dt)^[m] w) dt =
        ((UpdateRounded rnd ⟨(stepTimer rnd dt)^[m] w.timer, []⟩ dt).1,
          ⟨stepTimer rnd dt ((stepTimer rnd dt)^[m] w.timer),
            ((stepWorld rnd dt)^[m] w).fired
              ++ stepFired rnd dt ((stepTimer rnd dt)^[m] w.timer)⟩) := by
    intro m
    rw [← iterate_stepWorld_timer rnd dt w m]
    exact UpdateRounded_fired rnd _ _ dt
  have hgen : ∀ q : Nat,
      (∀ j, j < q →
        (UpdateRounded rnd (UpdateAllRounded rnd w (List.replicate j dt)).2 dt).2.fired
          = (UpdateAllRounded rnd w (List.replicate j dt)).2.fired) →
      (UpdateRounded rnd (UpdateAllRounded rnd w (List.replicate q dt)).2 dt).2.fired
          = (UpdateAllRounded rnd w (List.replicate q dt)).2.fired ++ [f] →
      ∀ m : Nat,
        (UpdateRounded rnd (UpdateAllRounded rnd w (List.replicate m dt)).2 dt).1
          = .ok false ∧
        (UpdateRounded rnd (UpdateAllRounded rnd w (List.replicate m dt)).2 dt).2.fired
          = (UpdateAllRounded rnd w (List.replicate m dt)).2.fired ++
            (if (q + 1) ∣ (m + 1) then [f] else []) := by
    intro q hquiet hfire m
    have hq' : ∀ j, j < q → stepFired rnd dt ((stepTimer rnd dt)^[j] w.timer) = [] := by
      intro j hj
      have h := hquiet j hj
      rw [hst j, hkey j] at h
      have h' : ((stepWorld rnd dt)^[j] w).fired
          ++ stepFired rnd dt ((stepTimer rnd dt)^[j] w.timer)
          = ((stepWorld rnd dt)^[j] w).fired ++ [] := by
        rw [List.append_nil]; exact h
      exact List.append_cancel_left h'
    have hf' : stepFired rnd dt ((stepTimer rnd dt)^[q] w.timer) = [f] := by
      have h := hfire
      rw [hst q, hkey q] at h
      exact List.append_cancel_left h
    obtain ⟨h1, h2⟩ := looping_period_core rnd dt f w.timer q hp hl hf hc hq' hf' m
    rw [hst m, hkey m]
    exact ⟨h1, by rw [h2]⟩
  refine ⟨hgen, fun hT hdt hex => ?_⟩
  have hw : w = ⟨afterSteps w.timer dt 0, w.fired⟩ := by
    rw [afterSteps_zero w.timer dt hc]
  have hE : ∀ j : Nat, j ≤ ⌊w.timer.m_TargetTime / dt⌋₊ →
      (UpdateAllRounded rnd w (List.replicate j dt)).2
        = ⟨afterSteps w.timer dt j, w.fired⟩ := by
    intro j
    induction j with
    | zero => intro _; exact hw
    | succ j ih =>
      intro hj
      have hj' : j ≤ ⌊w.timer.m_TargetTime / dt⌋₊ := Nat.le_of_succ_le hj
      have hU := UpdateRounded_afterSteps rnd w.timer w.fired dt f j hp hl hf hT hdt hj'
        (hex j hj')
      rw [if_pos hj] at hU
      rw [hst (j + 1), Function.iterate_succ_apply', ← hst j, ih hj']
      simp only [stepWorld, hU]
  apply hgen ⌊w.timer.m_TargetTime / dt⌋₊
  · intro j hj
    have hU := UpdateRounded_afterSteps rnd w.timer w.fired dt f j hp hl hf hT hdt hj.le
      (hex j hj.le)
    rw [if_pos (Nat.succ_le_of_lt hj)] at hU
    rw [hE j hj.le, hU]
  · have hU := UpdateRounded_afterSteps rnd w.timer w.fired dt f
      ⌊w.timer.m_TargetTime / dt⌋₊ hp hl hf hT hdt le_rfl (hex _ le_rfl)
    rw [if_neg (Nat.not_succ_le_self _)] at hU
    rw [hE _ le_rfl, hU]

/-! ## The period on binary64 values: `Timer(3.0, countingDown, looping)` with `dt = 0.6` -/

theorem loop06_step1 :
    UpdateRounded roundDouble ⟨⟨3, 3, true, true, false, false, some 7⟩, []⟩ double_0_6
      = (.ok false, ⟨⟨3, 5404319552844595 / 2251799813685248, true, true, false, false, some 7⟩, []⟩) := by
  have r : roundDouble (3 - double_0_6) = 5404319552844595 / 2251799813685248 := by
    rw [roundDouble_of_pos _ (1) 5404319552844595 (by norm_num [double_0_6]) (by norm_num [double_0_6])
      (by norm_num) (by norm_num [double_0_6]) (by norm_num [double_0_6])]
    norm_num [double_0_6]
  exact (UpdateRounded_countDown_val roundDouble ⟨⟨3, 3, true, true, false, false, some 7⟩, []⟩ double_0_6 _ 7 rfl rfl (by norm_num) rfl r).1
    (by norm_num)

theorem loop06_step1_again :
    UpdateRounded roundDouble ⟨⟨3, 3, true, true, false, false, some 7⟩, [7]⟩ double_0_6
      = (.ok false, ⟨⟨3, 5404319552844595 / 2251799813685248, true, true, false, false, some 7⟩, [7]⟩) := by
  have r : roundDouble (3 - double_0_6) = 5404319552844595 / 2251799813685248 := by
    rw [roundDouble_of_pos _ (1) 5404319552844595 (by norm_num [double_0_6]) (by norm_num [double_0_6])
      (by norm_num) (by norm_num [double_0_6]) (by norm_num [double_0_6])]
    norm_num [double_0_6]
  exact (UpdateRounded_countDown_val roundDouble ⟨⟨3, 3, true, true, false, false, some 7⟩, [7]⟩ double_0_6 _ 7 rfl rfl (by norm_num) rfl r).1
    (by norm_num)

theorem loop06_step2 :
    UpdateRounded roundDouble ⟨⟨3, 5404319552844595 / 2251799813685248, true, true, false, false, some 7⟩, []⟩ double_0_6
      = (.ok false, ⟨⟨3, 2026619832316723 / 1125899906842624, true, true, false, false, some 7⟩, []⟩) := by
  have r : roundDouble ((5404319552844595 / 2251799813685248) - double_0_6) = 2026619832316723 / 1125899906842624 := by
    rw [roundDouble_of_pos _ (0) 8106479329266892 (by norm_num [double_0_6]) (by norm_num [double_0_6])
      (by norm_num) (by norm_num [double_0_6]) (by norm_num [double_0_6])]
    norm_num [double_0_6]
  exact (UpdateRounded_countDown_val roundDouble ⟨⟨3, 5404319552844595 / 2251799813685248, true, true, false, false, some 7⟩, []⟩ double_0_6 _ 7 rfl rfl (by norm_num) rfl r).1
    (by norm_num)

theorem loop06_step3 :
    UpdateRounded roundDouble ⟨⟨3, 2026619832316723 / 1125899906842624, true, true, false, false, some 7⟩, []⟩ double_0_6
      = (.ok false, ⟨⟨3, 2702159776422297 / 2251799813685248, true, true, false, false, some 7⟩, []⟩) := by
  have r : roundDouble ((2026619832316723 / 1125899906842624) - double_0_6) = 2702159776422297 / 2251799813685248 := by
    rw [roundDouble_of_pos _ (0) 5404319552844594 (by norm_num [double_0_6]) (by norm_num [double_0_6])
      (by norm_num) (by norm_num [double_0_6]) (by norm_num [double_0_6])]
    norm_num [double_0_6]
  exact (UpdateRounded_countDown_val roundDouble ⟨⟨3, 2026619832316723 / 1125899906842624, true, true, false, false, some 7⟩, []⟩ double_0_6 _ 7 rfl rfl (by norm_num) rfl r).1
    (by norm_num)

theorem loop06_step4 :
    UpdateRounded roundDouble ⟨⟨3, 2702159776422297 / 2251799813685248, true, true, false, false, some 7⟩, []⟩ double_0_6
      = (.ok false, ⟨⟨3, 5404319552844593 / 9007199254740992, true, true, false, false, some 7⟩, []⟩) := by
  have r : roundDouble ((2702159776422297 / 2251799813685248) - double_0_6) = 5404319552844593 / 9007199254740992 := by
    rw [roundDouble_of_pos _ (-1) 5404319552844593 (by norm_num [double_0_6]) (by norm_num [double_0_6])
      (by norm_num) (by norm_num [double_0_6]) (by norm_num [double_0_6])]
    norm_num [double_0_6]
  exact (UpdateRounded_countDown_val roundDouble ⟨⟨3, 2702159776422297 / 2251799813685248, true, true, false, false, some 7⟩, []⟩ double_0_6 _ 7 rfl rfl (by norm_num) rfl r).1
    (by norm_num)

theorem loop06_step5 :
    UpdateRounded roundDouble ⟨⟨3, 5404319552844593 / 9007199254740992, true, true, false, false, some 7⟩, []⟩ double_0_6
      = (.ok false, ⟨⟨3, 3, true, true, false, false, some 7⟩, [7]⟩) := by
  have r : roundDouble ((5404319552844593 / 9007199254740992) - double_0_6) = -1 / 4503599627370496 := by
    rw [roundDouble_of_neg _ (-52) (-4503599627370496) (by norm_num [double_0_6])
      (by norm_num [double_0_6]) (by norm_num) (by norm_num [double_0_6])
      (by norm_num [double_0_6])]
    norm_num [double_0_6]
  exact (UpdateRounded_countDown_val roundDouble ⟨⟨3, 5404319552844593 / 9007199254740992, true, true, false, false, some 7⟩, []⟩ double_0_6 _ 7 rfl rfl (by norm_num) rfl
    r).2.2 (by norm_num) rfl

theorem loop06_init :
    World.init (Timer.mk5 3 true true (some 7) false) = ⟨⟨3, 3, true, true, false, false, some 7⟩, []⟩ := by
  norm_num [World.init, Timer.mk5]

theorem UpdateAllRounded_cons_ok (rnd : ℚ → ℚ) (w w1 : World) (d : ℚ) (b : Bool)
    (ds : List ℚ) (hU : UpdateRounded rnd w d = (.ok b, w1)) :
    UpdateAllRounded rnd w (d :: ds)
      = (.ok b :: (UpdateAllRounded rnd w1 ds).1, (UpdateAllRounded rnd w1 ds).2) := by
  simp only [UpdateAllRounded, hU]

/-- Appending one more call to a run in which no call threw. -/
theorem UpdateAllRounded_snoc (rnd : ℚ → ℚ) (d : ℚ) (n : Nat) (w w1 w2 : World)
    (h1 : UpdateAllRounded rnd w (List.replicate n d) = (List.replicate n (.ok false), w1))
    (h2 : UpdateRounded rnd w1 d = (.ok false, w2)) :
    UpdateAllRounded rnd w (List.replicate (n + 1) d)
      = (List.replicate (n + 1) (.ok false), w2) := by
  induction n generalizing w with
  | zero =>
    have hw : w = w1 := (Prod.mk.inj h1).2
    subst hw
    have e : List.replicate (0 + 1) d = [d] := rfl
    rw [e, UpdateAllRounded_cons_ok rnd w w2 d false [] h2]
    rfl
  | succ n ih =>
    have e1 : List.replicate (n + 1) d = d :: List.replicate n d := rfl
    have e2 : List.replicate (n + 1 + 1) d = d :: List.replicate (n + 1) d := rfl
    have e3 : List.replicate (n + 1) (Except.ok false : Except Exn Bool)
        = .ok false :: List.replicate n (.ok false) := rfl
    have e4 : List.replicate (n + 1 + 1) (Except.ok false : Except Exn Bool)
        = .ok false :: List.replicate (n + 1) (.ok false) := rfl
    rw [e1, e3] at h1
    rw [e2, e4]
    rcases hU : UpdateRounded rnd w d with ⟨_ | b, w'⟩
    · simp [UpdateAllRounded, hU] at h1
    · rw [UpdateAllRounded_cons_ok rnd w w' d b _ hU] at h1 ⊢
      obtain ⟨h3, hw⟩ := Prod.mk.inj h1
      obtain ⟨hb, hl⟩ := List.cons.inj h3
      rw [ih w' (Prod.ext hl hw), hb]

/-- The state of `Timer(3.0, countingDown, looping, cb, unpaused)` before any call. -/
theorem loop06_run0 :
    UpdateAllRounded roundDouble (World.init (Timer.mk5 3 true true (some 7) false)) (List.replicate 0 double_0_6)
      = (List.replicate 0 (.ok false), ⟨⟨3, 3, true, true, false, false, some 7⟩, []⟩) := by
  rw [loop06_init]
  rfl

theorem loop06_run1 :
    UpdateAllRounded roundDouble (World.init (Timer.mk5 3 true true (some 7) false)) (List.replicate 1 double_0_6)
      = (List.replicate 1 (.ok false), ⟨⟨3, 5404319552844595 / 2251799813685248, true, true, false, false, some 7⟩, []⟩) :=
  UpdateAllRounded_snoc roundDouble double_0_6 0 _ _ _ loop06_run0 loop06_step1

theorem loop06_run2 :
    UpdateAllRounded roundDouble (World.init (Timer.mk5 3 true true (some 7) false)) (List.replicate 2 double_0_6)
      = (List.replicate 2 (.ok false), ⟨⟨3, 2026619832316723 / 1125899906842624, true, true, false, false, some 7⟩, []⟩) :=
  UpdateAllRounded_snoc roundDouble double_0_6 1 _ _ _ loop06_run1 loop06_step2

theorem loop06_run3 :
    UpdateAllRounded roundDouble (World.init (Timer.mk5 3 true true (some 7) false)) (List.replicate 3 double_0_6)
      = (List.replicate 3 (.ok false), ⟨⟨3, 2702159776422297 / 2251799813685248, true, true, false, false, some 7⟩, []⟩) :=
  UpdateAllRounded_snoc roundDouble double_0_6 2 _ _ _ loop06_run2 loop06_step3

theorem loop06_run4 :
    UpdateAllRounded roundDouble (World.init (Timer.mk5 3 true true (some 7) false)) (List.replicate 4 double_0_6)
      = (List.replicate 4 (.ok false), ⟨⟨3, 5404319552844593 / 9007199254740992, true, true, false, false, some 7⟩, []⟩) :=
  UpdateAllRounded_snoc roundDouble double_0_6 3 _ _ _ loop06_run3 loop06_step4

theorem loop06_run5 :
    UpdateAllRounded roundDouble (World.init (Timer.mk5 3 true true (some 7) false)) (List.replicate 5 double_0_6)
      = (List.replicate 5 (.ok false), ⟨⟨3, 3, true, true, false, false, some 7⟩, [7]⟩) :=
  UpdateAllRounded_snoc roundDouble double_0_6 4 _ _ _ loop06_run4 loop06_step5

theorem loop06_run6 :
    UpdateAllRounded roundDouble (World.init (Timer.mk5 3 true true (some 7) false)) (List.replicate 6 double_0_6)
      = (List.replicate 6 (.ok false), ⟨⟨3, 5404319552844595 / 2251799813685248, true, true, false, false, some 7⟩, [7]⟩) :=
  UpdateAllRounded_snoc roundDouble double_0_6 5 _ _ _ loop06_run5 loop06_step1_again

/-- C19, as stated, fails on `double` values: `Timer(3.0, countingDown, looping,
cb, unpaused)` driven by `Update(0.6)`.  The elapsed value is the binary64
nearest to `0.6`; the claimed period `⌊T / dt⌋ + 1` is `6`, whether the quotient
is taken on the decimal values, exactly on the stored values, or rounded as a
`double` division (`3.0 / 0.6 = 5.0`).  The
code stores `2.4`, `1.7999999999999998`, `1.1999999999999997`,
`0.5999999999999998` and then a negative value: the callback has not run after
four calls, runs on call `5`, and does not run on call `6`. -/
theorem period_formula_fails_on_doubles :
    roundDouble (6 / 10) = double_0_6 ∧
    ⌊(3 : ℚ) / (6 / 10)⌋₊ + 1 = 6 ∧
    ⌊(3 : ℚ) / double_0_6⌋₊ + 1 = 6 ∧
    ⌊roundDouble (3 / double_0_6)⌋₊ + 1 = 6 ∧
    (UpdateAllRounded roundDouble (World.init (Timer.mk5 3 true true (some 7) false))
      (List.replicate 4 double_0_6)).2.fired = [] ∧
    (UpdateAllRounded roundDouble (World.init (Timer.mk5 3 true true (some 7) false))
      (List.replicate 5 double_0_6)).2.fired = [7] ∧
    (UpdateAllRounded roundDouble (World.init (Timer.mk5 3 true true (some 7) false))
      (List.replicate 6 double_0_6)).2.fired = [7] := by
  refine ⟨?_, ?_, ?_, ?_, ?_, ?_, ?_⟩
  · rw [roundDouble_of_pos _ (-1) 5404319552844595 (by norm_num) (by norm_num) (by norm_num)
      (by norm_num) (by norm_num)]
    norm_num [double_0_6]
  · norm_num
  · have h : ⌊(3 : ℚ) / double_0_6⌋₊ = 5 :=
      (Nat.floor_eq_iff (by norm_num [double_0_6])).mpr
        ⟨by norm_num [double_0_6], by norm_num [double_0_6]⟩
    rw [h]
  · have r : roundDouble (3 / double_0_6) = 5 := by
      rw [roundDouble_of_pos _ 2 5629499534213120 (by norm_num [double_0_6])
        (by norm_num [double_0_6]) (by norm_num) (by norm_num [double_0_6])
        (by norm_num [double_0_6])]
      norm_num [double_0_6]
    rw [r]
    norm_num
  · rw [loop06_run4]
  · rw [loop06_run5]
  · rw [loop06_run6]

/-- On binary64 values.  `Timer(3.0, countingDown, looping, cb, unpaused)` with
`Update(0.6)` first fires on call `5`, so call `10` fires and returns `false`.
`Timer(2.0, count-up, looping, cb, unpaused)` with `Update(1.0)` accumulates
`1, 2, 3` without rounding error, so its period is `⌊2 / 1⌋ + 1 = 3` and call
`3` fires. -/
theorem looping_fires_periodically_witness :
    ((UpdateRounded roundDouble (UpdateAllRounded roundDouble
        (World.init (Timer.mk5 3 true true (some 7) false)) (List.replicate 9 double_0_6)).2 double_0_6).1 = .ok false ∧
      (UpdateRounded roundDouble (UpdateAllRounded roundDouble
        (World.init (Timer.mk5 3 true true (some 7) false)) (List.replicate 9 double_0_6)).2 double_0_6).2.fired
        = (UpdateAllRounded roundDouble
            (World.init (Timer.mk5 3 true true (some 7) false)) (List.replicate 9 double_0_6)).2.fired ++
          (if (4 + 1) ∣ (9 + 1) then [7] else [])) ∧
    ((UpdateRounded roundDouble (UpdateAllRounded roundDouble
        (World.init (Timer.mk5 2 false true (some 7) false)) (List.replicate 2 1)).2 1).1 = .ok false ∧
      (UpdateRounded roundDouble (UpdateAllRounded roundDouble
        (World.init (Timer.mk5 2 false true (some 7) false)) (List.replicate 2 1)).2 1).2.fired
        = (UpdateAllRounded roundDouble
            (World.init (Timer.mk5 2 false true (some 7) false)) (List.replicate 2 1)).2.fired ++
          (if (⌊(World.init (Timer.mk5 2 false true (some 7) false)).timer.m_TargetTime / 1⌋₊ + 1) ∣ (2 + 1) then [7] else [])) := by
  constructor
  · refine (looping_fires_periodically roundDouble (World.init (Timer.mk5 3 true true (some 7) false)) 7 double_0_6 rfl rfl rfl
      (by norm_num [World.init, Timer.mk5, resetValue])).1 4 ?_ ?_ 9
    · intro j hj
      interval_cases j
      · simp only [loop06_run0, loop06_step1]
      · simp only [loop06_run1, loop06_step2]
      · simp only [loop06_run2, loop06_step3]
      · simp only [loop06_run3, loop06_step4]
    · simp only [loop06_run4, loop06_step5, List.nil_append]
  · refine (looping_fires_periodically roundDouble (World.init (Timer.mk5 2 false true (some 7) false)) 7 1 rfl rfl rfl
      (by norm_num [World.init, Timer.mk5, resetValue])).2
      (by norm_num [World.init, Timer.mk5]) (by norm_num) ?_ 2
    intro r hr
    have hfl : ⌊(World.init (Timer.mk5 2 false true (some 7) false)).timer.m_TargetTime / 1⌋₊ = 2 := by
      norm_num [World.init, Timer.mk5]
    rw [hfl] at hr
    obtain ⟨h1, h2, h3⟩ := roundDouble_small
    interval_cases r <;>
      norm_num [advance, afterSteps, World.init, Timer.mk5, h1, h2, h3]

end star
